import Mathlib

/-!
# lslogins: account aggregation and the ordered account collection

A shallow embedding of `login-utils/lslogins.c`.

* C strings are lists of bytes (`CStr`); the terminating NUL is implicit, a
  read past the end of the list yields the byte 0, and a string function stops
  at the first 0 byte exactly as the C library does.
* `errno`, the `getpwent` cursor and the process exit are explicit: a function
  that can call `err`/`exit` returns a `Run`.
* The host's databases and library calls (`getpwnam`, `getgrgid`, `getspnam`,
  `getgrouplist`, `read_utmp`, the time formatters) are the fields of `Host`.
* `tsearch`/`twalk` of `<search.h>` are the binary search tree of Knuth 6.2.2
  Algorithm T that POSIX specifies, and its depth-first left-to-right walk.
-/

namespace Lslogins

/-! ## C strings -/

/-- A C string: the bytes in memory before the implicit terminating NUL. -/
abbrev CStr := List Nat

/-- The bytes of a string literal. -/
def cs (s : String) : CStr := s.toList.map Char.toNat

/-- The C library `strlen`: the number of bytes before the first NUL. -/
def strlen (s : CStr) : Nat := (s.takeWhile (fun c => c ≠ 0)).length

/-- The C library `strcmp`: the difference of the first pair of bytes that
differ, 0 when both strings end together. -/
def strcmp : CStr → CStr → Int
  | [], s2 => 0 - (s2.headD 0 : Int)
  | c1 :: r1, s2 =>
    if c1 ≠ s2.headD 0 then (c1 : Int) - (s2.headD 0 : Int)
    else if c1 = 0 then 0
    else strcmp r1 s2.tail

/-- The C library `strncmp`: as `strcmp`, over at most `n` bytes. -/
def strncmp : CStr → CStr → Nat → Int
  | _, _, 0 => 0
  | s1, s2, n + 1 =>
    if s1.headD 0 ≠ s2.headD 0 then (s1.headD 0 : Int) - (s2.headD 0 : Int)
    else if s1.headD 0 = 0 then 0
    else strncmp s1.tail s2.tail n

/-- The test `strstr(haystack, needle) != NULL`. -/
def strstr (haystack needle : CStr) : Bool :=
  let h := haystack.takeWhile (fun c => c ≠ 0)
  let n := needle.takeWhile (fun c => c ≠ 0)
  h.tails.any (fun t => t.take n.length == n)

/-- Decimal digits of a number, most significant first (`fuel` bounds the
number of digits). -/
def utoa_digits : Nat → Nat → List Nat → List Nat
  | 0, _, acc => acc
  | fuel + 1, n, acc =>
    if n / 10 = 0 then (48 + n % 10) :: acc
    else utoa_digits fuel (n / 10) ((48 + n % 10) :: acc)

/-- The text that `printf("%u")` gives for an unsigned number. -/
def utoa (n : Nat) : CStr := utoa_digits (n + 1) n []

/-- The text that `printf("%ld")` gives for a signed number. -/
def ltoa (i : Int) : CStr :=
  if i < 0 then 45 :: utoa i.natAbs else utoa i.natAbs

/-! ## Constants of the system headers and of the program -/

def EPERM : Nat := 1
def ENOENT : Nat := 2
def ESRCH : Nat := 3
def EBADF : Nat := 9
def EAGAIN : Nat := 11
def EACCES : Nat := 13

def EXIT_SUCCESS : Nat := 0
def EXIT_FAILURE : Nat := 1

/-- Width of the `ut_user` field of `struct utmp` (`<utmp.h>`). -/
def UT_NAMESIZE : Nat := 32

/-- The range of `size_t`. -/
def SIZE_RANGE : Nat := 2 ^ 64

def F_EXPIR : Nat := 1
def F_MORE : Nat := 2
def F_NOPWD : Nat := 4
def F_SYSAC : Nat := 8
def F_USRAC : Nat := 16
def F_SORT : Nat := 32
def F_EXTRA : Nat := 64
def F_FAIL : Nat := 128
def F_LAST : Nat := 256
def F_SELINUX : Nat := 512

def COL_LOGIN : Nat := 0
def COL_UID : Nat := 1
def COL_PGRP : Nat := 2
def COL_PGID : Nat := 3
def COL_SGRPS : Nat := 4
def COL_HOME : Nat := 5
def COL_SHELL : Nat := 6
def COL_FULLNAME : Nat := 7
def COL_LAST_LOGIN : Nat := 8
def COL_LAST_TTY : Nat := 9
def COL_LAST_HOSTNAME : Nat := 10
def COL_FAILED_LOGIN : Nat := 11
def COL_FAILED_TTY : Nat := 12
def COL_HUSH_STATUS : Nat := 13
def COL_NOLOGIN : Nat := 14
def COL_LOCKED : Nat := 15
def COL_NOPASSWD : Nat := 16
def COL_PWD_WARN : Nat := 17
def COL_PWD_CTIME : Nat := 18
def COL_PWD_CTIME_MIN : Nat := 19
def COL_PWD_CTIME_MAX : Nat := 20
def COL_SELINUX : Nat := 21

/-- The array `status[] = { "0", "1", "-" }`. -/
def status (i : Nat) : CStr :=
  match i with
  | 0 => cs "0"
  | 1 => cs "1"
  | _ => cs "-"

/-- Test of a bit of the flag word: `flags & bit`. -/
def has_flag (flags bit : Nat) : Bool := flags &&& bit != 0

/-! ## Records -/

/-- The `struct utmp` fields the program reads. -/
structure utmp where
  ut_user : CStr
  ut_line : CStr
  ut_host : CStr
  ut_tv_sec : Int
deriving DecidableEq, Repr

/-- The `struct passwd` of `<pwd.h>`. -/
structure passwd where
  pw_name : CStr
  pw_uid : Nat
  pw_gid : Nat
  pw_gecos : CStr
  pw_dir : CStr
  pw_shell : CStr
deriving DecidableEq, Repr

/-- The `struct group` of `<grp.h>`. -/
structure group where
  gr_name : CStr
  gr_gid : Nat
  gr_mem : List CStr
deriving DecidableEq, Repr

/-- The `struct spwd` fields the program reads. -/
structure spwd where
  sp_pwdp : CStr
  sp_lstchg : Int
  sp_min : Int
  sp_max : Int
  sp_warn : Int
deriving DecidableEq, Repr

/-- The `struct lslogins_user`; a `char *` field is `none` when NULL. The
default value of each field is the zero that `xcalloc` leaves. -/
structure lslogins_user where
  login : Option CStr := none
  uid : Nat := 0
  group : Option CStr := none
  gid : Nat := 0
  gecos : Option CStr := none
  nopasswd : Int := 0
  nologin : Int := 0
  locked : Int := 0
  sgroups : Option CStr := none
  pwd_ctime : Option CStr := none
  pwd_warn : Option CStr := none
  pwd_ctime_min : Option CStr := none
  pwd_ctime_max : Option CStr := none
  last_login : Option CStr := none
  last_tty : Option CStr := none
  last_hostname : Option CStr := none
  failed_login : Option CStr := none
  failed_tty : Option CStr := none
  context : Option CStr := none
  homedir : Option CStr := none
  shell : Option CStr := none
  pwd_status : Option CStr := none
  hushed : Int := 0
deriving DecidableEq, Repr

/-- One node of the list `struct lslogins_sgroups`. -/
structure lslogins_sgroups where
  gid : CStr
  uname : CStr
deriving DecidableEq, Repr

/-! ## The search tree of `<search.h>` -/

/-- The tree behind the `void *` root that `tsearch` maintains; `nil` is the
NULL root. -/
inductive Tree (α : Type) where
  | nil : Tree α
  | node (left : Tree α) (key : α) (right : Tree α) : Tree α
deriving DecidableEq, Repr

/-- The library `tsearch`: descend by the sign of `compar(key, node)`; an
item that compares equal is found and the tree is left as it is, otherwise
the key becomes a new leaf. -/
def tsearch {α : Type} (compar : α → α → Int) (key : α) : Tree α → Tree α
  | .nil => .node .nil key .nil
  | .node l k r =>
    if compar key k = 0 then .node l k r
    else if compar key k < 0 then .node (tsearch compar key l) k r
    else .node l k (tsearch compar key r)

/-- The `VISIT` values that `twalk` passes to its action. -/
inductive VISIT where
  | preorder
  | postorder
  | endorder
  | leaf
deriving DecidableEq, Repr

/-- The library `twalk`, as the sequence of calls of the action (node,
visit, depth): a node without children is visited once as `leaf`, any other
node before, between and after its subtrees. -/
def twalk_from {α : Type} : Tree α → Nat → List (α × VISIT × Nat)
  | .nil, _ => []
  | .node .nil k .nil, d => [(k, VISIT.leaf, d)]
  | .node l k r, d =>
    (k, VISIT.preorder, d) :: twalk_from l (d + 1)
      ++ (k, VISIT.postorder, d) :: twalk_from r (d + 1)
      ++ [(k, VISIT.endorder, d)]

def twalk {α : Type} (root : Tree α) : List (α × VISIT × Nat) := twalk_from root 0

/-- The number of items of a tree. -/
def Tree.size {α : Type} : Tree α → Nat
  | .nil => 0
  | .node l _ r => l.size + 1 + r.size

/-- The items of a tree from left to right. -/
def Tree.inorder {α : Type} : Tree α → List α
  | .nil => []
  | .node l k r => l.inorder ++ k :: r.inorder

/-! ## The host and the state of the process -/

/-- The databases and library calls of the host. A failing lookup carries the
value that `errno` has after the call. -/
structure Host where
  /-- The entries that successive `getpwent` calls return; the end of the
  database gives NULL and leaves `errno` as it is. -/
  passwd_db : List passwd
  getpwnam : CStr → Except Nat passwd
  getgrgid : Nat → Except Nat group
  getgrnam : CStr → Except Nat group
  getspnam : CStr → Except Nat spwd
  /-- The gids that `getgrouplist(name, gid, ...)` stores. -/
  getgrouplist : CStr → Nat → List Nat
  /-- The library puts the gid passed to `getgrouplist` into the list it
  stores, whether or not the group database has it for the user. -/
  getgrouplist_has_gid : ∀ name gid, gid ∈ getgrouplist name gid
  /-- The call `read_utmp(path, &size, &buf)`: on success the values stored
  into `size` and `buf`. -/
  read_utmp : CStr → Except Nat (Nat × Option (List utmp))
  /-- The call `get_hushlogin_status(pwd, 0)`. -/
  get_hushlogin_status : passwd → Int
  /-- Whether `open("/etc/nologin", O_RDONLY)` succeeds. -/
  nologin_file : Bool
  /-- The text of `asctime(localtime_r(t))`, NULL on failure. -/
  asctime : Int → Option CStr
  /-- The text of `strftime(..., 16, "%a %b %d %Y", localtime_r(t))`. -/
  strftime : Int → CStr
  /-- Whether the program is built with `HAVE_LIBSELINUX`. -/
  HAVE_LIBSELINUX : Bool
  /-- The context that `getcon` stores, `none` when it fails. -/
  getcon : Option CStr

/-- The mutable state of the process outside the control structure. -/
structure World where
  errno : Nat
  /-- The entries `getpwent` has not returned yet. -/
  pwent : List passwd
deriving DecidableEq, Repr

/-- The outcome of a call that may end the process. -/
inductive Run (α : Type) where
  /-- The call returns `a` and leaves the state `w`. -/
  | ret (a : α) (w : World) : Run α
  /-- The process ends through `err`/`exit` with this status. -/
  | exit (code : Nat) : Run α
  /-- The call reads an array outside its bounds (undefined in C). -/
  | fault : Run α
  /-- A loop has not ended when the bound on its iterations is used up. -/
  | hang : Run α
deriving DecidableEq, Repr

/-- The file-scope variables `lslogins_flag`, `columns` and `ncolumns`;
`columns` holds the first `ncolumns` entries of the array. -/
structure Globals where
  lslogins_flag : Nat
  columns : List Nat

/-- The `struct lslogins_control`. -/
structure lslogins_control where
  wtmp : Option (List utmp) := none
  wtmp_size : Nat := 0
  btmp : Option (List utmp) := none
  btmp_size : Nat := 0
  usertree : Tree lslogins_user := Tree.nil
  UID_MIN : Nat := 0
  UID_MAX : Nat := 0
  SYS_UID_MIN : Nat := 0
  SYS_UID_MAX : Nat := 0
  cmp_fn : lslogins_user → lslogins_user → Int
  /-- The names stored in the array `ulist`; the entries behind them are the
  NULLs of `xcalloc`. -/
  ulist : List CStr := []
  ulsiz : Nat := 0

/-! ## Comparators -/

/-- The comparator `cmp_uname`: `strcmp` of the two logins. The C function
reads both pointers; it is only called on records whose login is set. -/
def cmp_uname (a b : lslogins_user) : Int :=
  strcmp (a.login.getD []) (b.login.getD [])

/-- The comparator `cmp_uid`. -/
def cmp_uid (a b : lslogins_user) : Int :=
  if a.uid > b.uid then 1 else (if a.uid < b.uid then -1 else 0)

/-! ## Supplementary groups -/

def uidtostr (uid : Nat) : CStr := utoa uid

def gidtostr (gid : Nat) : CStr := utoa gid

/-- The loop of `build_sgroups_list` over `list[n]`, `n < len`: the nodes
built and the sum that `*slen` accumulates; `none` when a `getgrgid` fails. -/
def build_sgroups_nodes (h : Host) : List Nat → Option (List lslogins_sgroups × Nat)
  | [] => some ([], 0)
  | gid :: rest =>
    match h.getgrgid gid with
    | .error _ => none
    | .ok grp =>
      match build_sgroups_nodes h rest with
      | none => none
      | some (nodes, slen) =>
        some ({ gid := gidtostr gid, uname := grp.gr_name } :: nodes,
          strlen (gidtostr gid) + strlen grp.gr_name + slen)

/-- The function `build_sgroups_list(len, list, &slen)`: the list of nodes and
the value left in `*slen`. The statement `slen += 3 * n - 1` advances the
local pointer `slen`, not the integer it points to, so `*slen` stays the sum
of the string lengths. -/
def build_sgroups_list (h : Host) (len : Nat) (list : Option (List Nat)) :
    Option (List lslogins_sgroups × Nat) :=
  match list with
  | none => none
  | some l => if len = 0 then none else build_sgroups_nodes h (l.take len)

/-- The text that the `sprintf` calls of `build_sgroups_string` write: every
node but the last as `gid(uname),` and the last as `gid(uname)`. -/
def sgroups_text : List lslogins_sgroups → CStr
  | [] => []
  | [g] => g.gid ++ 40 :: g.uname ++ [41]
  | g :: rest => g.gid ++ 40 :: g.uname ++ 41 :: 44 :: sgroups_text rest

/-- The buffer of `build_sgroups_string`: the number of bytes allocated and
the text written into it. -/
structure sgroups_buffer where
  size : Nat
  text : CStr
deriving DecidableEq, Repr

/-- The function `build_sgroups_string(len, list)`: NULL when
`build_sgroups_list` gives NULL, otherwise the buffer of `slen + 1` bytes
that `xcalloc` gives and the text that the `sprintf` calls write from its
start. Nothing in the code keeps the text within the buffer: when the text
and its NUL are longer than `size`, the bytes behind the first `size` are
written past the end of the allocation. -/
def build_sgroups_string (h : Host) (len : Nat) (list : Option (List Nat)) :
    Option sgroups_buffer :=
  match build_sgroups_list h len list with
  | none => none
  | some (sgrps, slen) => some { size := slen + 1, text := sgroups_text sgrps }

/-- The index at which the search loop of `get_sgroups` stops: the first `n`
with `list[n] == gid` (the length if there were none). -/
def find_gid (gid : Nat) : List Nat → Nat
  | [] => 0
  | g :: rest => if g = gid then 0 else find_gid gid rest + 1

/-- The function `get_sgroups(&len, &list, pwd)`: the return value, `*len` and
the array `*list`. The first `getgrouplist` call reports the number of gids,
the second one stores them. The code does not test whether the search loop
found the primary gid: it relies on `getgrouplist` storing the gid passed to
it (`Host.getgrouplist_has_gid`), so the loop ends at an index inside the
array and the store `(*list)[n] = (*list)[--(*len)]` lands inside it. -/
def get_sgroups (h : Host) (pwd : passwd) : Int × Nat × Option (List Nat) :=
  let raw := h.getgrouplist pwd.pw_name pwd.pw_gid
  if raw.length = 0 then (-1, 0, none)
  else
    let n := find_gid pwd.pw_gid raw
    let len := raw.length - 1
    let stored := raw.set n (raw.getD len 0)
    (0, len, some (stored.take len))

/-! ## Session correlation -/

/-- The test of the scan loops: `!strncmp(username, ut_user, len < UT_NAMESIZE
? len : UT_NAMESIZE)` with `len = strlen(username)`. -/
def ut_user_match (username : CStr) (u : utmp) : Bool :=
  strncmp username u.ut_user
    (if strlen username < UT_NAMESIZE then strlen username else UT_NAMESIZE) == 0

/-- The `do ... while (n--)` loop of `get_last_wtmp` and `get_last_btmp`,
entered at index `n`. The outer `none` is a read outside the array, `some
none` the NULL result, `some (some i)` the pointer to element `i`. -/
def get_last_scan (log : List utmp) (username : CStr) : Nat → Option (Option Nat)
  | 0 =>
    match log[0]? with
    | none => none
    | some u => if ut_user_match username u then some (some 0) else some none
  | n + 1 =>
    match log[n + 1]? with
    | none => none
    | some u =>
      if ut_user_match username u then some (some (n + 1))
      else get_last_scan log username n

/-- The function `get_last_wtmp`; the start index `wtmp_size - 1` is computed
in `size_t`. -/
def get_last_wtmp (ctl : lslogins_control) (username : Option CStr) : Option (Option Nat) :=
  match username with
  | none => some none
  | some name =>
    get_last_scan (ctl.wtmp.getD []) name ((ctl.wtmp_size + SIZE_RANGE - 1) % SIZE_RANGE)

/-- The function `get_last_btmp`. -/
def get_last_btmp (ctl : lslogins_control) (username : Option CStr) : Option (Option Nat) :=
  match username with
  | none => some none
  | some name =>
    get_last_scan (ctl.btmp.getD []) name ((ctl.btmp_size + SIZE_RANGE - 1) % SIZE_RANGE)

/-- The function `parse_wtmp`: the return value and the control structure;
`read_utmp` stores into `wtmp_size` and `wtmp` only when it succeeds. -/
def parse_wtmp (h : Host) (ctl : lslogins_control) (path : CStr) (w : World) :
    Run (Int × lslogins_control) :=
  match h.read_utmp path with
  | .ok (size, buf) => .ret (0, { ctl with wtmp_size := size, wtmp := buf }) w
  | .error e =>
    if e ≠ EACCES then .exit EXIT_FAILURE
    else .ret (-1, ctl) { w with errno := e }

/-- The function `parse_btmp`. -/
def parse_btmp (h : Host) (ctl : lslogins_control) (path : CStr) (w : World) :
    Run (Int × lslogins_control) :=
  match h.read_utmp path with
  | .ok (size, buf) => .ret (0, { ctl with btmp_size := size, btmp := buf }) w
  | .error e =>
    if e ≠ EACCES then .exit EXIT_FAILURE
    else .ret (-1, ctl) { w with errno := e }

/-! ## The account record -/

/-- The function `make_time` on the text of `asctime`: a final newline is cut
off. -/
def make_time (s : Option CStr) : Option CStr :=
  s.map (fun t => if t.getLast? = some 10 then t.dropLast else t)

/-- The locals of `get_user_info` that the column switch reads. -/
structure user_sources where
  pwd : passwd
  grp : group
  shadow : Option spwd
  user_wtmp : Option utmp
  user_btmp : Option utmp

/-- One pass of the `switch (columns[n++])` of `get_user_info`; an error is
the exit status of `err`. -/
def set_column (h : Host) (src : user_sources) (col : Nat) (user : lslogins_user) :
    Except Nat lslogins_user :=
  if col = COL_LOGIN then .ok { user with login := some src.pwd.pw_name }
  else if col = COL_UID then .ok { user with uid := src.pwd.pw_uid }
  else if col = COL_PGRP then .ok { user with group := some src.grp.gr_name }
  else if col = COL_PGID then .ok { user with gid := src.pwd.pw_gid }
  else if col = COL_SGRPS then
    match get_sgroups h src.pwd with
    | (rc, n, list) =>
      if rc ≠ 0 then .error 1
      else
        match build_sgroups_string h n list with
        | some buf => .ok { user with sgroups := some buf.text }
        | none => .ok { user with sgroups := some (status 2) }
  else if col = COL_HOME then .ok { user with homedir := some src.pwd.pw_dir }
  else if col = COL_SHELL then .ok { user with shell := some src.pwd.pw_shell }
  else if col = COL_FULLNAME then .ok { user with gecos := some src.pwd.pw_gecos }
  else if col = COL_LAST_LOGIN then
    match src.user_wtmp with
    | some u => .ok { user with last_login := make_time (h.asctime u.ut_tv_sec) }
    | none => .ok { user with last_login := some (status 2) }
  else if col = COL_LAST_TTY then
    match src.user_wtmp with
    | some u => .ok { user with last_tty := some u.ut_line }
    | none => .ok { user with last_tty := some (status 2) }
  else if col = COL_LAST_HOSTNAME then
    match src.user_wtmp with
    | some u => .ok { user with last_hostname := some u.ut_host }
    | none => .ok { user with last_hostname := some (status 2) }
  else if col = COL_FAILED_LOGIN then
    match src.user_btmp with
    | some u => .ok { user with failed_login := make_time (h.asctime u.ut_tv_sec) }
    | none => .ok { user with failed_login := some (status 2) }
  else if col = COL_FAILED_TTY then
    match src.user_btmp with
    | some u => .ok { user with failed_tty := some u.ut_line }
    | none => .ok { user with failed_tty := some (status 2) }
  else if col = COL_HUSH_STATUS then
    .ok { user with hushed :=
      if h.get_hushlogin_status src.pwd = -1 then 2 else h.get_hushlogin_status src.pwd }
  else if col = COL_NOPASSWD then
    match src.shadow with
    | some sp => if sp.sp_pwdp.headD 0 = 0 then .ok { user with nopasswd := 1 } else .ok user
    | none => .ok { user with nopasswd := 2 }
  else if col = COL_NOLOGIN then
    if (src.pwd.pw_uid ≠ 0 ∧ h.nologin_file = true) ∨ strstr src.pwd.pw_shell (cs "nologin") = true
    then .ok { user with nologin := 1 }
    else .ok user
  else if col = COL_LOCKED then
    match src.shadow with
    | some sp => if sp.sp_pwdp.headD 0 = 33 then .ok { user with locked := 1 } else .ok user
    | none => .ok { user with locked := 2 }
  else if col = COL_PWD_WARN then
    match src.shadow with
    | some sp =>
      if sp.sp_warn ≠ -1 then .ok { user with pwd_warn := some (ltoa sp.sp_warn) }
      else .ok { user with pwd_warn := some (status 2) }
    | none => .ok { user with pwd_warn := some (status 2) }
  else if col = COL_PWD_CTIME then
    match src.shadow with
    | some sp => .ok { user with pwd_ctime := some (h.strftime sp.sp_lstchg) }
    | none => .ok { user with pwd_ctime := some (status 2) }
  else if col = COL_PWD_CTIME_MIN then
    match src.shadow with
    | some sp =>
      if sp.sp_min ≤ 0 then .ok { user with pwd_ctime_min := some (cs "unlimited") }
      else .ok { user with pwd_ctime_min := some (ltoa sp.sp_min) }
    | none => .ok { user with pwd_ctime_min := some (status 2) }
  else if col = COL_PWD_CTIME_MAX then
    match src.shadow with
    | some sp =>
      if sp.sp_max ≤ 0 then .ok { user with pwd_ctime_max := some (cs "unlimited") }
      else .ok { user with pwd_ctime_max := some (ltoa sp.sp_max) }
    | none => .ok { user with pwd_ctime_max := some (status 2) }
  else if col = COL_SELINUX then
    if h.HAVE_LIBSELINUX = true then
      match h.getcon with
      | some con => .ok { user with context := some con }
      | none => .ok { user with context := some (status 2) }
    else .ok user
  else .error EXIT_FAILURE

/-- The loop `while (n < ncolumns) switch (columns[n++])` of `get_user_info`. -/
def set_columns (h : Host) (src : user_sources) : List Nat → lslogins_user →
    Except Nat lslogins_user
  | [], user => .ok user
  | col :: rest, user =>
    match set_column h src col user with
    | .ok user1 => set_columns h src rest user1
    | .error code => .error code

/-- The lines of `get_user_info` after the column loop: the field the
comparator needs is filled in. -/
def set_sort_key (g : Globals) (pwd : passwd) (user : lslogins_user) : lslogins_user :=
  if has_flag g.lslogins_flag F_SORT = true then
    (if user.login = none then { user with login := some pwd.pw_name } else user)
  else { user with uid := pwd.pw_uid }

/-- The account class test of `get_user_info`: whether the entry is turned
down with `errno = EAGAIN`. -/
def uid_rejected (g : Globals) (ctl : lslogins_control) (pwd : passwd) : Bool :=
  if has_flag g.lslogins_flag F_USRAC = true ∧ strcmp (cs "nfsnobody") pwd.pw_name ≠ 0 then
    decide (pwd.pw_uid < ctl.UID_MIN ∨ pwd.pw_uid > ctl.UID_MAX)
  else if has_flag g.lslogins_flag F_SYSAC = true then
    decide (pwd.pw_uid < ctl.SYS_UID_MIN ∨ pwd.pw_uid > ctl.SYS_UID_MAX)
  else false

/-- The start of `get_user_info`: `getpwnam(username)` when a name is given,
`getpwent()` otherwise. -/
def fetch_passwd (h : Host) (username : Option CStr) (w : World) : Option passwd × World :=
  match username with
  | some name =>
    match h.getpwnam name with
    | .ok pwd => (some pwd, w)
    | .error e => (none, { w with errno := e })
  | none =>
    match w.pwent with
    | [] => (none, w)
    | pwd :: rest => (some pwd, { w with pwent := rest })

/-- The record a session pointer refers to. -/
def session_at (buf : Option (List utmp)) (i : Option Nat) : Option utmp :=
  match buf, i with
  | some log, some n => log[n]?
  | _, _ => none

/-- The function `get_user_info`: the record, or NULL with `errno` telling
why. No caller reads `errno` when a record is returned; the state then
carries the value the shadow lookup left. -/
def get_user_info (h : Host) (g : Globals) (ctl : lslogins_control)
    (username : Option CStr) (w0 : World) : Run (Option lslogins_user) :=
  match fetch_passwd h username { w0 with errno := 0 } with
  | (none, w1) => .ret none w1
  | (some pwd, w1) =>
    if uid_rejected g ctl pwd = true then .ret none { w1 with errno := EAGAIN }
    else
      match h.getgrgid pwd.pw_gid with
      | .error e => .ret none { w1 with errno := e }
      | .ok grp =>
        match (if ctl.wtmp.isSome then get_last_wtmp ctl (some pwd.pw_name) else some none),
              (if ctl.btmp.isSome then get_last_btmp ctl (some pwd.pw_name) else some none) with
        | some iw, some ib =>
          match h.getspnam pwd.pw_name with
          | .error e =>
            if e ≠ EACCES then .exit EXIT_FAILURE
            else
              match set_columns h
                { pwd := pwd, grp := grp, shadow := none,
                  user_wtmp := session_at ctl.wtmp iw, user_btmp := session_at ctl.btmp ib }
                g.columns {} with
              | .ok user => .ret (some (set_sort_key g pwd user)) { w1 with errno := e }
              | .error code => .exit code
          | .ok sp =>
            match set_columns h
              { pwd := pwd, grp := grp,
                shadow := some { sp with sp_lstchg := sp.sp_lstchg * 86400 },
                user_wtmp := session_at ctl.wtmp iw, user_btmp := session_at ctl.btmp ib }
              g.columns {} with
            | .ok user => .ret (some (set_sort_key g pwd user)) { w1 with errno := 0 }
            | .error code => .exit code
        | _, _ => .fault

/-! ## Building and walking the collection -/

/-- The macro `IS_REAL_ERRNO`. -/
def IS_REAL_ERRNO (e : Nat) : Bool :=
  !(e == ENOENT || e == ESRCH || e == EBADF || e == EPERM || e == EAGAIN)

/-- The loop of `get_next_user`; `fuel` bounds its iterations. -/
def get_next_user_loop (h : Host) (g : Globals) (ctl : lslogins_control) :
    Nat → World → Run (Option lslogins_user)
  | 0, _ => .hang
  | fuel + 1, w =>
    match get_user_info h g ctl none w with
    | .ret none w1 =>
      if w1.errno = EAGAIN then get_next_user_loop h g ctl fuel w1 else .ret none w1
    | r => r

/-- The function `get_next_user`. Every pass of its loop takes an entry from
`getpwent`, so one pass more than there are entries left is enough. -/
def get_next_user (h : Host) (g : Globals) (ctl : lslogins_control) (w : World) :
    Run (Option lslogins_user) :=
  get_next_user_loop h g ctl (w.pwent.length + 1) { w with errno := 0 }

/-- The function `get_user`: the return value and `*user`. -/
def get_user (h : Host) (g : Globals) (ctl : lslogins_control) (username : CStr)
    (w : World) : Run (Int × Option lslogins_user) :=
  match get_user_info h g ctl (some username) w with
  | .ret user w1 =>
    if user = none ∧ w1.errno ≠ 0 ∧ IS_REAL_ERRNO w1.errno = true then .ret (-1, user) w1
    else .ret (0, user) w1
  | .exit code => .exit code
  | .fault => .fault
  | .hang => .hang

/-- The first loop of `create_usertree`, over the names `ulist[n]`. -/
def create_usertree_ulist (h : Host) (g : Globals) :
    List CStr → lslogins_control → World → Run (Int × lslogins_control)
  | [], ctl, w => .ret (0, ctl) w
  | name :: rest, ctl, w =>
    match get_user h g ctl name w with
    | .ret (rc, user) w1 =>
      if rc ≠ 0 then .ret (-1, ctl) w1
      else
        match user with
        | some u =>
          create_usertree_ulist h g rest
            { ctl with usertree := tsearch ctl.cmp_fn u ctl.usertree } w1
        | none => create_usertree_ulist h g rest ctl w1
    | .exit code => .exit code
    | .fault => .fault
    | .hang => .hang

/-- The second loop of `create_usertree`, over `get_next_user`; `fuel` bounds
its iterations. -/
def create_usertree_all (h : Host) (g : Globals) :
    Nat → lslogins_control → World → Run (Int × lslogins_control)
  | 0, _, _ => .hang
  | fuel + 1, ctl, w =>
    match get_next_user h g ctl w with
    | .ret (some u) w1 =>
      create_usertree_all h g fuel
        { ctl with usertree := tsearch ctl.cmp_fn u ctl.usertree } w1
    | .ret none w1 => .ret (0, ctl) w1
    | .exit code => .exit code
    | .fault => .fault
    | .hang => .hang

/-- The function `create_usertree`: the return value and the control
structure with the tree. `*ctl->ulist` is the first stored name, NULL when
none was stored; `ulsiz` is the number of names stored. Every record that
`get_next_user` returns takes an entry from `getpwent`, which bounds the
second loop. -/
def create_usertree (h : Host) (g : Globals) (ctl : lslogins_control) (w : World) :
    Run (Int × lslogins_control) :=
  if ctl.ulist.head?.isSome then create_usertree_ulist h g (ctl.ulist.take ctl.ulsiz) ctl w
  else create_usertree_all h g (w.pwent.length + 1) ctl w

/-- The sequence of `tsearch` calls that `create_usertree` makes for the
records handed to it, starting from the tree `t`. -/
def insert_users (compar : lslogins_user → lslogins_user → Int) :
    List lslogins_user → Tree lslogins_user → Tree lslogins_user
  | [], t => t
  | u :: rest, t => insert_users compar rest (tsearch compar u t)

/-- The action `fill_table`: no line for a `preorder` or `endorder` visit,
otherwise one table line filled from the record (the cell texts go to
libsmartcols). -/
def fill_table (u : lslogins_user) (which : VISIT) (_depth : Nat) : Option lslogins_user :=
  if which = VISIT.preorder ∨ which = VISIT.endorder then none else some u

/-- The function `print_user_table`: the records of the table lines in the
order `twalk(ctl->usertree, fill_table)` adds them. -/
def table_rows (root : Tree lslogins_user) : List lslogins_user :=
  (twalk root).filterMap (fun v => fill_table v.1 v.2.1 v.2.2)

def print_user_table (ctl : lslogins_control) : List lslogins_user :=
  table_rows ctl.usertree

/-- Insertion into a list kept in strictly increasing comparator order; an
item that compares equal to one already there is dropped. -/
def ordered_insert {α : Type} (compar : α → α → Int) (x : α) : List α → List α
  | [] => [x]
  | y :: ys =>
    if compar x y = 0 then y :: ys
    else if compar x y < 0 then x :: y :: ys
    else y :: ordered_insert compar x ys

/-- A comparator that behaves as a total preorder: the sign flips with the
arguments and `≤ 0` is transitive. -/
structure TotalCmp {α : Type} (compar : α → α → Int) : Prop where
  flip : ∀ a b, 0 < compar a b ↔ compar b a < 0
  le_trans : ∀ a b c, compar a b ≤ 0 → compar b c ≤ 0 → compar a c ≤ 0

/-! ## The list of requested logins -/

/-- The tokens of `s` between commas, `cur` being the token read so far: an
empty token is dropped and the text ends at the first NUL. -/
def split_tokens : CStr → CStr → List CStr
  | [], cur => if cur = [] then [] else [cur]
  | c :: rest, cur =>
    if c = 0 then (if cur = [] then [] else [cur])
    else if c = 44 then (if cur = [] then split_tokens rest [] else cur :: split_tokens rest [])
    else split_tokens rest (cur ++ [c])

/-- The tokens that the calls `strtok(s, ",")`, `strtok(NULL, ",")`, ... return
before the NULL; a NULL `s` (the option was not given) yields none. -/
def strtok_all (s : Option CStr) : List CStr :=
  match s with
  | none => []
  | some t => split_tokens t []

/-- The loop `while ((u = grp->gr_mem[n++]))` entered with the entries from
index `n` on still ahead: every entry is appended and the NULL that ends the
array is read too, so `n` ends one past it. -/
def gr_mem_rest : List CStr → Nat → List CStr → Nat × List CStr
  | [], n, ar => (n + 1, ar)
  | u :: rest, n, ar => gr_mem_rest rest (n + 1) (ar ++ [u])

/-- The loop `while ((u = grp->gr_mem[n++]))` of `get_ulist`, entered with the
index `n` as the loops before left it: the new `n` and the list. The array
holds the members and a final NULL; an index past the NULL is a read outside
the array (`none`). -/
def gr_mem_loop (mem : List CStr) (n : Nat) (ar : List CStr) : Option (Nat × List CStr) :=
  if n ≤ mem.length then some (gr_mem_rest (mem.drop n) n ar) else none

/-- The second loop of `get_ulist`, over the group names; `n` is declared and
zeroed once, before the loops. -/
def get_ulist_groups (h : Host) : List CStr → Nat → List CStr → Option (Nat × List CStr)
  | [], n, ar => some (n, ar)
  | g :: rest, n, ar =>
    match h.getgrnam g with
    | .error _ => get_ulist_groups h rest n ar
    | .ok grp =>
      match gr_mem_loop grp.gr_mem n ar with
      | none => none
      | some (n1, ar1) => get_ulist_groups h rest n1 ar1

/-- The function `get_ulist`: the return value and the control structure
with `ulist` and `ulsiz`; `none` when it reads outside a member array. The
index `i` of the next free entry is the length of the list, and `ulsiz`
ends as `i`. -/
def get_ulist (h : Host) (ctl : lslogins_control) (logins groups : Option CStr) :
    Option (Int × lslogins_control) :=
  match get_ulist_groups h (strtok_all groups) 0 (strtok_all logins) with
  | none => none
  | some (_, ar) => some (0, { ctl with ulist := ar, ulsiz := ar.length })

/-! ## The main program after the option loop -/

/-- The statement `if (lslogins_flag & F_USRAC && lslogins_flag & F_SYSAC)
lslogins_flag &= ~(F_USRAC | F_SYSAC)`. -/
def clear_both_classes (flag : Nat) : Nat :=
  if has_flag flag F_USRAC = true ∧ has_flag flag F_SYSAC = true
  then flag ^^^ (F_USRAC ||| F_SYSAC) else flag

/-- The branch `if (!ncolumns)` of `main`: the default columns for the flags,
`want_wtmp` and `want_btmp`. -/
def default_columns (flag : Nat) : List Nat × Bool × Bool :=
  ([COL_LOGIN, COL_UID, COL_PGRP, COL_PGID, COL_FULLNAME]
    ++ (if has_flag flag F_NOPWD then [COL_NOPASSWD] else [])
    ++ (if has_flag flag F_MORE then [COL_SGRPS] else [])
    ++ (if has_flag flag F_EXPIR then [COL_PWD_CTIME, COL_PWD_WARN] else [])
    ++ (if has_flag flag F_LAST then [COL_LAST_LOGIN, COL_LAST_TTY, COL_LAST_HOSTNAME] else [])
    ++ (if has_flag flag F_FAIL then [COL_FAILED_LOGIN, COL_FAILED_TTY] else [])
    ++ (if has_flag flag F_EXTRA then
          [COL_HOME, COL_SHELL, COL_NOPASSWD, COL_NOLOGIN, COL_LOCKED, COL_HUSH_STATUS,
           COL_PWD_CTIME_MIN, COL_PWD_CTIME_MAX] else [])
    ++ (if has_flag flag F_SELINUX then [COL_SELINUX] else []),
   has_flag flag F_LAST, has_flag flag F_FAIL)

/-- The loop of the `else` branch of `main` over the columns given with
`-o`: `want_wtmp` and `want_btmp`, entered with the values in `want`. -/
def scan_columns : List Nat → Bool × Bool → Bool × Bool
  | [], want => want
  | i :: rest, (want_wtmp, want_btmp) =>
    scan_columns rest
      (if i ≤ COL_LAST_HOSTNAME ∧ i ≥ COL_LAST_LOGIN then true else want_wtmp,
       if i = COL_FAILED_TTY ∧ i ≥ COL_FAILED_LOGIN then true else want_btmp)

/-- The columns, `want_wtmp` and `want_btmp` that `main` settles on; `given`
holds the columns of `-o`, none when the option was not used. -/
def choose_columns (flag : Nat) (given : List Nat) : List Nat × Bool × Bool :=
  if given = [] then default_columns flag
  else (given, scan_columns given (false, false))

/-- The function `main` from the end of the option loop on: the exit status
and the lines of the table. `flag`, `given` and `ctl` are `lslogins_flag`,
the `-o` columns and the control structure as the option loop left them. -/
def main_after_options (h : Host) (flag : Nat) (given : List Nat) (ctl : lslogins_control)
    (logins groups : Option CStr) (path_wtmp path_btmp : CStr) (w : World) :
    Run (Nat × List lslogins_user) :=
  match choose_columns (clear_both_classes flag) given with
  | (columns, want_wtmp, want_btmp) =>
    match (if want_wtmp then parse_wtmp h ctl path_wtmp w else .ret (0, ctl) w) with
    | .exit code => .exit code
    | .fault => .fault
    | .hang => .hang
    | .ret (_, ctl1) w1 =>
      match (if want_btmp then parse_btmp h ctl1 path_btmp w1 else .ret (0, ctl1) w1) with
      | .exit code => .exit code
      | .fault => .fault
      | .hang => .hang
      | .ret (_, ctl2) w2 =>
        match get_ulist h ctl2 logins groups with
        | none => .fault
        | some (_, ctl3) =>
          match create_usertree h
              { lslogins_flag := clear_both_classes flag, columns := columns } ctl3 w2 with
          | .exit code => .exit code
          | .fault => .fault
          | .hang => .hang
          | .ret (rc, ctl4) w3 =>
            if rc ≠ 0 then .ret (EXIT_FAILURE, []) w3
            else .ret (EXIT_SUCCESS, print_user_table ctl4) w3

/-! ## Reference forms and concrete hosts -/

/-- The name that `getgrgid` gives for a gid. -/
def group_name (h : Host) (gid : Nat) : CStr :=
  match h.getgrgid gid with
  | .ok grp => grp.gr_name
  | .error _ => []

/-- The pair `gid(name)` of a group. -/
def sgroup_pair (h : Host) (gid : Nat) : CStr :=
  utoa gid ++ 40 :: group_name h gid ++ [41]

/-- Texts joined by single commas: no bracket around them and no comma after
the last. -/
def comma_join : List CStr → CStr
  | [] => []
  | [a] => a
  | a :: rest => a ++ 44 :: comma_join rest

/-- A host given by tables: the passwd entries, the groups that resolve, the
gids `raw` that the group database has for every account (`getgrouplist`
stores them, with the gid passed to it in front when it is not among them),
the `errno` of a failed `getgrgid` and the outcome of every `read_utmp`.
Shadow lookups are refused with EACCES. -/
def table_host (db : List passwd) (groups : List group) (raw : List Nat)
    (grgid_errno : Nat) (utmp_result : Except Nat (Nat × Option (List utmp))) : Host where
  passwd_db := db
  getpwnam := fun name =>
    match db.find? (fun p => p.pw_name = name) with
    | some p => .ok p
    | none => .error 0
  getgrgid := fun gid =>
    match groups.find? (fun g => g.gr_gid = gid) with
    | some g => .ok g
    | none => .error grgid_errno
  getgrnam := fun name =>
    match groups.find? (fun g => g.gr_name = name) with
    | some g => .ok g
    | none => .error 0
  getspnam := fun _ => .error EACCES
  getgrouplist := fun _ gid => if gid ∈ raw then raw else gid :: raw
  getgrouplist_has_gid := by
    intro name gid
    by_cases hmem : gid ∈ raw <;> simp [hmem]
  read_utmp := fun _ => utmp_result
  get_hushlogin_status := fun _ => 0
  nologin_file := false
  asctime := fun _ => none
  strftime := fun _ => []
  HAVE_LIBSELINUX := false
  getcon := none

/-- The return value of `create_usertree` and the table lines that
`print_user_table` then gives, when the call returns. -/
def created_rows (r : Run (Int × lslogins_control)) : Option (Int × List lslogins_user) :=
  match r with
  | .ret (rc, ctl) _ => some (rc, print_user_table ctl)
  | _ => none

/-- The result of `get_user_info` without the state. -/
def Run.value {α : Type} (r : Run α) : Option α :=
  match r with
  | .ret a _ => some a
  | _ => none

/-- The value `errno` has when the call returns. -/
def Run.errno {α : Type} (r : Run α) : Option Nat :=
  match r with
  | .ret _ w => some w.errno
  | _ => none

/-- The record that `get_user_info(ctl, name)` returns for a name, `none`
when it returns NULL or does not return. -/
def named_record (h : Host) (g : Globals) (ctl : lslogins_control) (name : CStr) :
    Option lslogins_user :=
  match get_user_info h g ctl (some name) { errno := 0, pwent := [] } with
  | .ret x _ => x
  | _ => none

/-- The host with every shadow lookup refused: `getspnam` gives NULL and
leaves EACCES in `errno`. -/
def denied (h : Host) : Host :=
  { h with getspnam := fun _ => .error EACCES }

/-- A record with the six fields filled from shadow data blanked; two records
with the same image agree on every other field. -/
def shadow_blind (u : lslogins_user) : lslogins_user :=
  { u with nopasswd := 0, locked := 0, pwd_warn := none, pwd_ctime := none,
           pwd_ctime_min := none, pwd_ctime_max := none }

/-! # Theorems -/

theorem strcmp_neg (a b : CStr) : strcmp a b = - strcmp b a := by
  induction a generalizing b with
  | nil =>
    rcases b with _ | ⟨y, rb⟩
    · simp [strcmp]
    · by_cases hy : y = 0 <;> simp [strcmp, hy]
  | cons x ra ih =>
    rcases b with _ | ⟨y, rb⟩
    · by_cases hx : x = 0 <;> simp [strcmp, hx]
    · by_cases hxy : x = y
      · subst hxy
        by_cases hx : x = 0
        · simp [strcmp, hx]
        · simp [strcmp, hx, ih rb]
      · have hyx : ¬ y = x := fun h => hxy h.symm
        simp [strcmp, hxy, hyx]

theorem strcmp_le_trans (a b c : CStr) (h1 : strcmp a b ≤ 0) (h2 : strcmp b c ≤ 0) :
    strcmp a c ≤ 0 := by
  induction a generalizing b c with
  | nil => simp [strcmp]
  | cons x ra ih =>
    rcases b with _ | ⟨y, rb⟩ <;> rcases c with _ | ⟨z, rc⟩
    · exact h1
    · simp only [strcmp, List.headD_nil, List.headD_cons, List.tail_cons, List.tail_nil] at *
      split_ifs at * <;> omega
    · simp only [strcmp, List.headD_nil, List.headD_cons, List.tail_cons, List.tail_nil] at *
      split_ifs at * <;> omega
    · simp only [strcmp, List.headD_nil, List.headD_cons, List.tail_cons, List.tail_nil] at *
      split_ifs at * <;> first | omega | exact ih rb rc h1 h2

theorem cmp_uid_total : TotalCmp cmp_uid := by
  constructor
  · intro a b
    unfold cmp_uid
    split_ifs <;> omega
  · intro a b c
    unfold cmp_uid
    split_ifs <;> omega

theorem cmp_uname_total : TotalCmp cmp_uname := by
  constructor
  · intro a b
    unfold cmp_uname
    rw [strcmp_neg (b.login.getD []) (a.login.getD [])]
    omega
  · intro a b c
    exact strcmp_le_trans _ _ _

section TotalCmpFacts

variable {α : Type} {compar : α → α → Int}

theorem TotalCmp.zero_symm (hc : TotalCmp compar) {a b : α} (h : compar a b = 0) :
    compar b a = 0 := by
  have h1 := hc.flip a b
  have h2 := hc.flip b a
  omega

theorem TotalCmp.lt_of_lt_of_le (hc : TotalCmp compar) {a b c : α}
    (h1 : compar a b < 0) (h2 : compar b c ≤ 0) : compar a c < 0 := by
  have hac := hc.le_trans a b c (by omega) h2
  by_contra hn
  have h0 : compar a c = 0 := by omega
  have hca : compar c a ≤ 0 := by
    have := hc.zero_symm h0
    omega
  have hba := hc.le_trans b c a h2 hca
  have := hc.flip b a
  omega

theorem TotalCmp.lt_of_le_of_lt (hc : TotalCmp compar) {a b c : α}
    (h1 : compar a b ≤ 0) (h2 : compar b c < 0) : compar a c < 0 := by
  have hac := hc.le_trans a b c h1 (by omega)
  by_contra hn
  have h0 : compar a c = 0 := by omega
  have hca : compar c a ≤ 0 := by
    have := hc.zero_symm h0
    omega
  have hcb := hc.le_trans c a b hca h1
  have := hc.flip c b
  omega

theorem TotalCmp.lt_trans (hc : TotalCmp compar) {a b c : α}
    (h1 : compar a b < 0) (h2 : compar b c < 0) : compar a c < 0 :=
  hc.lt_of_lt_of_le h1 (by omega)

theorem ordered_insert_mem (x : α) (l : List α) (w : α)
    (hw : w ∈ ordered_insert compar x l) : w = x ∨ w ∈ l := by
  induction l with
  | nil =>
    simp only [ordered_insert, List.mem_singleton] at hw
    exact Or.inl hw
  | cons y ys ih =>
    simp only [ordered_insert] at hw
    split_ifs at hw with h0 hlt
    · exact Or.inr hw
    · rcases List.mem_cons.mp hw with rfl | h
      · exact Or.inl rfl
      · exact Or.inr h
    · rcases List.mem_cons.mp hw with rfl | h
      · exact Or.inr (List.mem_cons_self _ _)
      · rcases ih h with h | h
        · exact Or.inl h
        · exact Or.inr (List.mem_cons_of_mem _ h)

theorem ordered_insert_sorted (hc : TotalCmp compar) (x : α) (l : List α)
    (hl : l.Pairwise (fun a b => compar a b < 0)) :
    (ordered_insert compar x l).Pairwise (fun a b => compar a b < 0) := by
  induction l with
  | nil => simp [ordered_insert]
  | cons y ys ih =>
    have hy := (List.pairwise_cons.mp hl).1
    have hys := (List.pairwise_cons.mp hl).2
    simp only [ordered_insert]
    split_ifs with h0 hlt
    · exact hl
    · refine List.pairwise_cons.mpr ⟨?_, hl⟩
      intro z hz
      rcases List.mem_cons.mp hz with rfl | hz
      · exact hlt
      · exact hc.lt_trans hlt (hy z hz)
    · refine List.pairwise_cons.mpr ⟨?_, ih hys⟩
      intro z hz
      rcases ordered_insert_mem x ys z hz with rfl | hz
      · have := hc.flip z y
        omega
      · exact hy z hz

theorem ordered_insert_append_of_gt (x : α) (l rest : List α)
    (hgt : ∀ y ∈ l, 0 < compar x y) :
    ordered_insert compar x (l ++ rest) = l ++ ordered_insert compar x rest := by
  induction l with
  | nil => rfl
  | cons y ys ih =>
    have hy := hgt y (List.mem_cons_self _ _)
    have h0 : ¬ compar x y = 0 := by omega
    have h1 : ¬ compar x y < 0 := by omega
    have ih1 := ih (fun z hz => hgt z (List.mem_cons_of_mem _ hz))
    show ordered_insert compar x (y :: (ys ++ rest)) = y :: (ys ++ ordered_insert compar x rest)
    simp only [ordered_insert, h0, h1, if_false, ih1]

theorem ordered_insert_append_of_lt (x k : α) (l rest : List α) (hlt : compar x k < 0) :
    ordered_insert compar x (l ++ k :: rest) = ordered_insert compar x l ++ k :: rest := by
  induction l with
  | nil =>
    have h0 : ¬ compar x k = 0 := by omega
    simp [ordered_insert, h0, hlt]
  | cons y ys ih =>
    show ordered_insert compar x (y :: (ys ++ k :: rest))
      = ordered_insert compar x (y :: ys) ++ k :: rest
    simp only [ordered_insert]
    split_ifs with h0 h1
    · rfl
    · rfl
    · rw [ih]
      rfl

theorem inorder_tsearch (hc : TotalCmp compar) (x : α) (t : Tree α)
    (ht : t.inorder.Pairwise (fun a b => compar a b < 0)) :
    (tsearch compar x t).inorder = ordered_insert compar x t.inorder := by
  induction t with
  | nil => rfl
  | node l k r ihl ihr =>
    simp only [Tree.inorder] at ht
    have hparts := List.pairwise_append.mp ht
    have hl := hparts.1
    have hkr := List.pairwise_cons.mp hparts.2.1
    have hlk : ∀ y ∈ l.inorder, compar y k < 0 := fun y hy =>
      hparts.2.2 y hy k (List.mem_cons_self _ _)
    simp only [tsearch]
    split_ifs with h0 hlt
    · simp only [Tree.inorder]
      rw [ordered_insert_append_of_gt x l.inorder (k :: r.inorder)]
      · simp [ordered_insert, h0]
      · intro y hy
        have h1 : compar k x ≤ 0 := by
          have := hc.zero_symm h0
          omega
        have h2 := hc.lt_of_lt_of_le (hlk y hy) h1
        have := hc.flip x y
        omega
    · simp only [Tree.inorder]
      rw [ihl hl, ordered_insert_append_of_lt x k l.inorder r.inorder hlt]
    · simp only [Tree.inorder]
      have hkx : compar k x < 0 := by
        have := hc.flip x k
        omega
      rw [ihr hkr.2, ordered_insert_append_of_gt x l.inorder (k :: r.inorder)]
      · have h1 : ¬ compar x k < 0 := hlt
        simp [ordered_insert, h0, h1]
      · intro y hy
        have h2 := hc.lt_trans (hlk y hy) hkx
        have := hc.flip x y
        omega

theorem tsearch_sorted (hc : TotalCmp compar) (x : α) (t : Tree α)
    (ht : t.inorder.Pairwise (fun a b => compar a b < 0)) :
    (tsearch compar x t).inorder.Pairwise (fun a b => compar a b < 0) := by
  rw [inorder_tsearch hc x t ht]
  exact ordered_insert_sorted hc x _ ht

end TotalCmpFacts

/-! ## The walk of the tree -/

theorem table_rows_from (t : Tree lslogins_user) (d : Nat) :
    (twalk_from t d).filterMap (fun v => fill_table v.1 v.2.1 v.2.2) = t.inorder := by
  induction t generalizing d with
  | nil => simp [twalk_from, Tree.inorder]
  | node l k r ihl ihr =>
    rcases l with _ | ⟨ll, lk, lr⟩ <;> rcases r with _ | ⟨rl, rk, rr⟩
    · simp [twalk_from, Tree.inorder, fill_table]
    · have hr := ihr (d + 1)
      simp only [twalk_from, List.filterMap_cons, List.filterMap_append, fill_table] at hr ⊢
      simp [Tree.inorder, hr]
    · have hl := ihl (d + 1)
      simp only [twalk_from, List.filterMap_cons, List.filterMap_append, fill_table] at hl ⊢
      simp [Tree.inorder, hl]
    · have hl := ihl (d + 1)
      have hr := ihr (d + 1)
      simp only [twalk_from, List.filterMap_cons, List.filterMap_append, fill_table] at hl hr ⊢
      simp [Tree.inorder, hl, hr]

theorem table_rows_eq_inorder (t : Tree lslogins_user) : table_rows t = t.inorder :=
  table_rows_from t 0

theorem insert_users_sorted {compar : lslogins_user → lslogins_user → Int}
    (hc : TotalCmp compar) (users : List lslogins_user) (t : Tree lslogins_user)
    (ht : t.inorder.Pairwise (fun a b => compar a b < 0)) :
    (insert_users compar users t).inorder.Pairwise (fun a b => compar a b < 0) := by
  induction users generalizing t with
  | nil => exact ht
  | cons u rest ih => exact ih (tsearch compar u t) (tsearch_sorted hc u t ht)

/-- C1. For `cmp_uid`, and for `cmp_uname` on records whose login is set, the
table lines that the walk of the tree built by any sequence of insertions
emits are in strictly increasing comparator order: every earlier line
compares below every later one, so no two lines have equal keys. -/
theorem walk_strictly_increasing (compar : lslogins_user → lslogins_user → Int)
    (users : List lslogins_user)
    (hcmp : compar = cmp_uid ∨ (compar = cmp_uname ∧ ∀ u ∈ users, u.login ≠ none)) :
    (table_rows (insert_users compar users Tree.nil)).Pairwise
      (fun a b => compar a b < 0)
    ∧ (table_rows (insert_users compar users Tree.nil)).Pairwise
      (fun a b => compar a b ≠ 0) := by
  have hc : TotalCmp compar := by
    rcases hcmp with h | ⟨h, _⟩
    · rw [h]; exact cmp_uid_total
    · rw [h]; exact cmp_uname_total
  rw [table_rows_eq_inorder]
  have hsorted := insert_users_sorted hc users Tree.nil List.Pairwise.nil
  refine ⟨hsorted, hsorted.imp ?_⟩
  intro a b hlt
  omega

theorem walk_strictly_increasing_witness :
    (table_rows (insert_users cmp_uname
        [{ login := some (cs "bob"), uid := 7 }, { login := some (cs "ann"), uid := 9 },
         { login := some (cs "bob"), uid := 3 }] Tree.nil)).Pairwise
      (fun a b => cmp_uname a b < 0) :=
  (walk_strictly_increasing cmp_uname _ (Or.inr ⟨rfl, by decide⟩)).1

/-! ## Insertion of a record whose key is already present -/

section Duplicates

variable {α : Type} {compar : α → α → Int}

theorem TotalCmp.refl (hc : TotalCmp compar) (a : α) : compar a a = 0 := by
  have := hc.flip a a
  omega

theorem TotalCmp.zero_trans (hc : TotalCmp compar) {a b c : α}
    (h1 : compar a b = 0) (h2 : compar b c = 0) : compar a c = 0 := by
  have h3 := hc.le_trans a b c (by omega) (by omega)
  have h4 := hc.le_trans c b a (by have := hc.zero_symm h2; omega)
    (by have := hc.zero_symm h1; omega)
  have h5 := hc.flip c a
  omega

theorem tsearch_of_equal (hc : TotalCmp compar) (x : α) (t : Tree α)
    (ht : t.inorder.Pairwise (fun a b => compar a b < 0))
    (hdup : ∃ v ∈ t.inorder, compar x v = 0) : tsearch compar x t = t := by
  induction t with
  | nil =>
    obtain ⟨v, hv, _⟩ := hdup
    simp [Tree.inorder] at hv
  | node l k r ihl ihr =>
    simp only [Tree.inorder] at ht hdup
    have hparts := List.pairwise_append.mp ht
    have hkr := List.pairwise_cons.mp hparts.2.1
    have hlk : ∀ y ∈ l.inorder, compar y k < 0 := fun y hy =>
      hparts.2.2 y hy k (List.mem_cons_self _ _)
    obtain ⟨v, hv, hxv⟩ := hdup
    have hvx : compar v x ≤ 0 := by
      have := hc.zero_symm hxv
      omega
    simp only [tsearch]
    split_ifs with h0 hlt
    · rfl
    · have hvl : v ∈ l.inorder := by
        rcases List.mem_append.mp hv with h | h
        · exact h
        · exfalso
          rcases List.mem_cons.mp h with rfl | h
          · exact h0 hxv
          · have h1 := hc.lt_trans hlt (hkr.1 v h)
            omega
      rw [ihl hparts.1 ⟨v, hvl, hxv⟩]
    · have hkx : compar k x < 0 := by
        have := hc.flip x k
        omega
      have hvr : v ∈ r.inorder := by
        rcases List.mem_append.mp hv with h | h
        · exfalso
          have h1 := hc.lt_trans (hlk v h) hkx
          have := hc.flip x v
          omega
        · rcases List.mem_cons.mp h with rfl | h
          · exact absurd hxv h0
          · exact h
      rw [ihr hkr.2 ⟨v, hvr, hxv⟩]

theorem mem_ordered_insert_of_mem (x : α) (l : List α) (v : α) (hv : v ∈ l) :
    v ∈ ordered_insert compar x l := by
  induction l with
  | nil => simp at hv
  | cons y ys ih =>
    simp only [ordered_insert]
    split_ifs with h0 hlt
    · exact hv
    · exact List.mem_cons_of_mem _ hv
    · rcases List.mem_cons.mp hv with rfl | h
      · exact List.mem_cons_self _ _
      · exact List.mem_cons_of_mem _ (ih h)

theorem self_mem_ordered_insert (x : α) (l : List α)
    (hne : ∀ w ∈ l, compar x w ≠ 0) : x ∈ ordered_insert compar x l := by
  induction l with
  | nil => simp [ordered_insert]
  | cons y ys ih =>
    have hy := hne y (List.mem_cons_self _ _)
    simp only [ordered_insert, hy, if_false]
    split_ifs with hlt
    · exact List.mem_cons_self _ _
    · exact List.mem_cons_of_mem _ (ih (fun w hw => hne w (List.mem_cons_of_mem _ hw)))

end Duplicates

theorem insert_users_append (compar : lslogins_user → lslogins_user → Int)
    (xs ys : List lslogins_user) (t : Tree lslogins_user) :
    insert_users compar (xs ++ ys) t = insert_users compar ys (insert_users compar xs t) := by
  induction xs generalizing t with
  | nil => rfl
  | cons x xs ih => exact ih (tsearch compar x t)

theorem first_seen_kept {compar : lslogins_user → lslogins_user → Int}
    (hc : TotalCmp compar) (rest pre : List lslogins_user) (t : Tree lslogins_user)
    (ht : t.inorder.Pairwise (fun a b => compar a b < 0))
    (hkept : ∀ v ∈ t.inorder, pre.find? (fun x => decide (compar x v = 0)) = some v)
    (hcov : ∀ x ∈ pre, ∃ v ∈ t.inorder, compar x v = 0) :
    ∀ v ∈ (insert_users compar rest t).inorder,
      (pre ++ rest).find? (fun x => decide (compar x v = 0)) = some v := by
  induction rest generalizing pre t with
  | nil => simpa [insert_users] using hkept
  | cons u rest ih =>
    have hsorted := tsearch_sorted hc u t ht
    have hin := inorder_tsearch hc u t ht
    have hold : ∀ v ∈ t.inorder,
        (pre ++ [u]).find? (fun x => decide (compar x v = 0)) = some v := by
      intro v hv
      rw [List.find?_append, hkept v hv]
      rfl
    have key := ih (pre ++ [u]) (tsearch compar u t) hsorted
    rw [List.append_assoc] at key
    by_cases hdup : ∃ w ∈ t.inorder, compar u w = 0
    · have heq := tsearch_of_equal hc u t ht hdup
      apply key
      · rw [heq]
        exact hold
      · rw [heq]
        intro x hx
        rcases List.mem_append.mp hx with h | h
        · exact hcov x h
        · rw [List.mem_singleton.mp h]
          exact hdup
    · have hne : ∀ w ∈ t.inorder, compar u w ≠ 0 := fun w hw h0 => hdup ⟨w, hw, h0⟩
      apply key
      · intro v hv
        rw [hin] at hv
        rcases ordered_insert_mem u t.inorder v hv with rfl | hv
        · have hnone : pre.find? (fun x => decide (compar x v = 0)) = none := by
            rw [List.find?_eq_none]
            intro x hx hxv
            obtain ⟨w, hw, hxw⟩ := hcov x hx
            have hxv0 : compar x v = 0 := by simpa using hxv
            exact hne w hw (hc.zero_trans (hc.zero_symm hxv0) hxw)
          rw [List.find?_append, hnone]
          simp [hc.refl v]
        · exact hold v hv
      · intro x hx
        rw [hin]
        rcases List.mem_append.mp hx with h | h
        · obtain ⟨w, hw, hxw⟩ := hcov x h
          exact ⟨w, mem_ordered_insert_of_mem u _ w hw, hxw⟩
        · rw [List.mem_singleton.mp h]
          exact ⟨u, self_mem_ordered_insert u _ hne, hc.refl u⟩

theorem find_congr_of_equal {compar : lslogins_user → lslogins_user → Int}
    (hc : TotalCmp compar) (l : List lslogins_user) (u v : lslogins_user)
    (huv : compar u v = 0) :
    l.find? (fun x => decide (compar x u = 0)) = l.find? (fun x => decide (compar x v = 0)) := by
  induction l with
  | nil => rfl
  | cons y ys ih =>
    have hiff : compar y u = 0 ↔ compar y v = 0 :=
      ⟨fun h => hc.zero_trans h huv, fun h => hc.zero_trans h (hc.zero_symm huv)⟩
    by_cases hy : compar y u = 0
    · simp [List.find?, hy, hiff.mp hy]
    · have hy2 : ¬ compar y v = 0 := fun h => hy (hiff.mpr h)
      simp [List.find?, hy, hy2, ih]

/-- C2. Inserting a record whose key compares equal to a record the
collection already holds leaves the tree as it is: the tree after the
sequence `users ++ [u]` is the tree after `users`, it has the same number of
records, and the record it holds for the key of `u` is the first record of
the insertion sequence that has that key. -/
theorem duplicate_insert_ignored (compar : lslogins_user → lslogins_user → Int)
    (users : List lslogins_user) (u : lslogins_user)
    (hcmp : compar = cmp_uid ∨
      (compar = cmp_uname ∧ u.login ≠ none ∧ ∀ x ∈ users, x.login ≠ none))
    (hdup : ∃ v ∈ table_rows (insert_users compar users Tree.nil), compar u v = 0) :
    insert_users compar (users ++ [u]) Tree.nil = insert_users compar users Tree.nil
    ∧ (insert_users compar (users ++ [u]) Tree.nil).size
        = (insert_users compar users Tree.nil).size
    ∧ ∀ v ∈ table_rows (insert_users compar (users ++ [u]) Tree.nil), compar u v = 0 →
        users.find? (fun x => decide (compar x u = 0)) = some v := by
  have hc : TotalCmp compar := by
    rcases hcmp with h | ⟨h, _⟩
    · rw [h]; exact cmp_uid_total
    · rw [h]; exact cmp_uname_total
  have hsorted := insert_users_sorted hc users Tree.nil List.Pairwise.nil
  rw [table_rows_eq_inorder] at hdup
  have heq : insert_users compar (users ++ [u]) Tree.nil
      = insert_users compar users Tree.nil := by
    rw [insert_users_append]
    exact tsearch_of_equal hc u _ hsorted hdup
  refine ⟨heq, by rw [heq], ?_⟩
  intro v hv huv
  rw [heq, table_rows_eq_inorder] at hv
  have hfirst := first_seen_kept hc users [] Tree.nil List.Pairwise.nil
    (by intro v hv; simp [Tree.inorder] at hv) (by intro x hx; simp at hx) v hv
  rw [List.nil_append] at hfirst
  rw [find_congr_of_equal hc users u v huv]
  exact hfirst

theorem duplicate_insert_ignored_witness :
    insert_users cmp_uid ([{ uid := 5, login := some (cs "eve") }, { uid := 2 }]
        ++ [{ uid := 5, login := some (cs "mallory") }]) Tree.nil
      = insert_users cmp_uid [{ uid := 5, login := some (cs "eve") }, { uid := 2 }] Tree.nil
    ∧ (insert_users cmp_uid ([{ uid := 5, login := some (cs "eve") }, { uid := 2 }]
        ++ [{ uid := 5, login := some (cs "mallory") }]) Tree.nil).size
      = (insert_users cmp_uid [{ uid := 5, login := some (cs "eve") }, { uid := 2 }]
          Tree.nil).size
    ∧ ∀ v ∈ table_rows (insert_users cmp_uid
          ([{ uid := 5, login := some (cs "eve") }, { uid := 2 }]
            ++ [{ uid := 5, login := some (cs "mallory") }]) Tree.nil),
        cmp_uid { uid := 5, login := some (cs "mallory") } v = 0 →
        List.find? (fun x => decide (cmp_uid x { uid := 5, login := some (cs "mallory") } = 0))
          [{ uid := 5, login := some (cs "eve") }, { uid := 2 }] = some v :=
  duplicate_insert_ignored cmp_uid _ _ (Or.inl rfl)
    ⟨{ uid := 5, login := some (cs "eve") }, by decide, by decide⟩

/-! ## Session correlation -/

theorem get_last_scan_spec (log : List utmp) (name : CStr) (n : Nat) (hn : n < log.length) :
    ∃ r, get_last_scan log name n = some r
      ∧ (∀ i, r = some i → i ≤ n ∧ (log[i]?).map (ut_user_match name) = some true
          ∧ ∀ j, i < j → j ≤ n → (log[j]?).map (ut_user_match name) ≠ some true)
      ∧ (r = none ↔ ∀ j, j ≤ n → (log[j]?).map (ut_user_match name) ≠ some true) := by
  induction n with
  | zero =>
    obtain ⟨u, hu⟩ : ∃ u, log[0]? = some u := ⟨log[0], List.getElem?_eq_getElem hn⟩
    by_cases hm : ut_user_match name u = true
    · refine ⟨some 0, by simp [get_last_scan, hu, hm], ?_, ?_⟩
      · intro i hi
        cases hi
        exact ⟨le_refl 0, by simp [hu, hm], fun j h1 h2 => by omega⟩
      · constructor
        · intro h
          cases h
        · intro h
          exact absurd (by simp [hu, hm]) (h 0 (le_refl 0))
    · refine ⟨none, by simp [get_last_scan, hu, hm], ?_, ?_⟩
      · intro i hi
        cases hi
      · constructor
        · intro _ j hj
          have hj0 : j = 0 := by omega
          subst hj0
          simp [hu, hm]
        · intro _
          rfl
  | succ k ih =>
    obtain ⟨u, hu⟩ : ∃ u, log[k + 1]? = some u := ⟨log[k + 1], List.getElem?_eq_getElem hn⟩
    by_cases hm : ut_user_match name u = true
    · refine ⟨some (k + 1), by simp [get_last_scan, hu, hm], ?_, ?_⟩
      · intro i hi
        cases hi
        exact ⟨le_refl _, by simp [hu, hm], fun j h1 h2 => by omega⟩
      · constructor
        · intro h
          cases h
        · intro h
          exact absurd (by simp [hu, hm]) (h (k + 1) (le_refl _))
    · obtain ⟨r, hr, hfound, hnone⟩ := ih (by omega)
      refine ⟨r, by simp [get_last_scan, hu, hm, hr], ?_, ?_⟩
      · intro i hi
        obtain ⟨h1, h2, h3⟩ := hfound i hi
        refine ⟨by omega, h2, ?_⟩
        intro j hij hj
        by_cases hjk : j = k + 1
        · subst hjk
          simp [hu, hm]
        · exact h3 j hij (by omega)
      · constructor
        · intro h j hj
          by_cases hjk : j = k + 1
          · subst hjk
            simp [hu, hm]
          · exact hnone.mp h j (by omega)
        · intro h
          exact hnone.mpr (fun j hj => h j (by omega))

theorem size_minus_one (n : Nat) (h0 : 0 < n) (h1 : n < SIZE_RANGE) :
    (n + SIZE_RANGE - 1) % SIZE_RANGE = n - 1 := by
  unfold SIZE_RANGE at *
  omega

theorem get_last_most_recent (log : List utmp) (name : CStr)
    (hne : log ≠ []) (hsize : log.length < SIZE_RANGE) :
    ∃ r, get_last_scan log name ((log.length + SIZE_RANGE - 1) % SIZE_RANGE) = some r
      ∧ (∀ i, r = some i → i < log.length
          ∧ (log[i]?).map (ut_user_match name) = some true
          ∧ ∀ j, i < j → (log[j]?).map (ut_user_match name) ≠ some true)
      ∧ (r = none ↔ ∀ u ∈ log, ut_user_match name u = false) := by
  have hpos : 0 < log.length := List.length_pos.mpr hne
  rw [size_minus_one log.length hpos hsize]
  obtain ⟨r, hr, hfound, hnone⟩ := get_last_scan_spec log name (log.length - 1) (by omega)
  refine ⟨r, hr, ?_, ?_⟩
  · intro i hi
    obtain ⟨h1, h2, h3⟩ := hfound i hi
    refine ⟨by omega, h2, ?_⟩
    intro j hij
    by_cases hj : j ≤ log.length - 1
    · exact h3 j hij hj
    · have hout : log[j]? = none := List.getElem?_eq_none (by omega)
      simp [hout]
  · rw [hnone]
    constructor
    · intro h u hu
      obtain ⟨j, hj, hju⟩ := List.getElem_of_mem hu
      have hj2 := h j (by omega)
      rw [List.getElem?_eq_getElem hj, hju] at hj2
      cases hb : ut_user_match name u
      · rfl
      · simp [hb] at hj2
    · intro h j _ hmatch
      cases hlj : log[j]? with
      | none => simp [hlj] at hmatch
      | some u =>
        have hu : u ∈ log := List.getElem?_mem hlj
        simp [hlj, h u hu] at hmatch

/-- C3. On a non-empty session log `get_last_wtmp`, and in the same way
`get_last_btmp`, returns the most recent record that matches the name: a
returned position lies in the log, its record passes the name test and no
record at a greater position does, and NULL is returned exactly when no
record of the log passes the test. On the log (bob,100), (bob,200),
(ann,150) the name "bob" gives the record with time 200 and "carl" gives
NULL. -/
theorem last_session_most_recent (ctl : lslogins_control) (log : List utmp) (name : CStr)
    (hne : log ≠ []) (hmax : log.length < SIZE_RANGE) :
    (ctl.wtmp = some log → ctl.wtmp_size = log.length →
      ∃ r, get_last_wtmp ctl (some name) = some r
        ∧ (∀ i, r = some i → i < log.length
            ∧ (log[i]?).map (ut_user_match name) = some true
            ∧ ∀ j, i < j → (log[j]?).map (ut_user_match name) ≠ some true)
        ∧ (r = none ↔ ∀ u ∈ log, ut_user_match name u = false))
    ∧ (ctl.btmp = some log → ctl.btmp_size = log.length →
      ∃ r, get_last_btmp ctl (some name) = some r
        ∧ (∀ i, r = some i → i < log.length
            ∧ (log[i]?).map (ut_user_match name) = some true
            ∧ ∀ j, i < j → (log[j]?).map (ut_user_match name) ≠ some true)
        ∧ (r = none ↔ ∀ u ∈ log, ut_user_match name u = false))
    ∧ get_last_wtmp
        { wtmp := some [⟨cs "bob", [], [], 100⟩, ⟨cs "bob", [], [], 200⟩, ⟨cs "ann", [], [], 150⟩],
          wtmp_size := 3, cmp_fn := cmp_uid } (some (cs "bob")) = some (some 1)
    ∧ (session_at
        (some [⟨cs "bob", [], [], 100⟩, ⟨cs "bob", [], [], 200⟩, ⟨cs "ann", [], [], 150⟩])
        (some 1)).map utmp.ut_tv_sec = some 200
    ∧ get_last_wtmp
        { wtmp := some [⟨cs "bob", [], [], 100⟩, ⟨cs "bob", [], [], 200⟩, ⟨cs "ann", [], [], 150⟩],
          wtmp_size := 3, cmp_fn := cmp_uid } (some (cs "carl")) = some none
    ∧ get_last_btmp
        { btmp := some [⟨cs "bob", [], [], 100⟩, ⟨cs "bob", [], [], 200⟩, ⟨cs "ann", [], [], 150⟩],
          btmp_size := 3, cmp_fn := cmp_uid } (some (cs "bob")) = some (some 1)
    ∧ get_last_btmp
        { btmp := some [⟨cs "bob", [], [], 100⟩, ⟨cs "bob", [], [], 200⟩, ⟨cs "ann", [], [], 150⟩],
          btmp_size := 3, cmp_fn := cmp_uid } (some (cs "carl")) = some none := by
  refine ⟨?_, ?_, by decide, by decide, by decide, by decide, by decide⟩
  · intro hw hwsize
    simp only [get_last_wtmp, hw, hwsize, Option.getD_some]
    exact get_last_most_recent log name hne hmax
  · intro hb hbsize
    simp only [get_last_btmp, hb, hbsize, Option.getD_some]
    exact get_last_most_recent log name hne hmax

theorem last_session_most_recent_witness :
    ∃ r, get_last_wtmp
        { wtmp := some [⟨cs "root", cs "tty1", [], 10⟩, ⟨cs "ann", cs "pts/0", cs "host", 20⟩],
          wtmp_size := 2, cmp_fn := cmp_uid } (some (cs "root")) = some r
      ∧ (r = none ↔ ∀ u ∈ [(⟨cs "root", cs "tty1", [], 10⟩ : utmp),
            ⟨cs "ann", cs "pts/0", cs "host", 20⟩], ut_user_match (cs "root") u = false) :=
  have h := (last_session_most_recent
    { wtmp := some [⟨cs "root", cs "tty1", [], 10⟩, ⟨cs "ann", cs "pts/0", cs "host", 20⟩],
      wtmp_size := 2, cmp_fn := cmp_uid }
    [⟨cs "root", cs "tty1", [], 10⟩, ⟨cs "ann", cs "pts/0", cs "host", 20⟩] (cs "root")
    (by decide) (by decide)).1 rfl rfl
  match h with
  | ⟨r, hr, _, hnone⟩ => ⟨r, hr, hnone⟩

theorem strncmp_eq_zero_iff (s1 s2 : CStr) (n : Nat) (hn : n ≤ strlen s1) :
    strncmp s1 s2 n = 0 ↔ s1.take n = s2.take n := by
  induction n generalizing s1 s2 with
  | zero => simp [strncmp]
  | succ k ih =>
    rcases s1 with _ | ⟨c, r⟩
    · simp [strlen] at hn
    · by_cases hc : c = 0
      · simp [strlen, hc] at hn
      · have hk : k ≤ strlen r := by
          simp only [strlen, List.takeWhile_cons, hc, ne_eq, not_false_eq_true, decide_True,
            if_true, List.length_cons] at hn ⊢
          omega
        rcases s2 with _ | ⟨d, r2⟩
        · simp only [strncmp, List.headD_cons, List.headD_nil, ne_eq, hc, not_false_eq_true,
            if_true, List.take_nil, List.take_succ_cons]
          constructor
          · intro h
            omega
          · intro h
            cases h
        · by_cases hcd : c = d
          · subst hcd
            simp only [strncmp, List.headD_cons, ne_eq, not_true_eq_false, if_false, hc,
              List.tail_cons, List.take_succ_cons, List.cons.injEq, true_and]
            exact ih r r2 hk
          · simp only [strncmp, List.headD_cons, ne_eq, hcd, not_false_eq_true, if_true,
              List.take_succ_cons, List.cons.injEq, false_and, iff_false]
            omega

/-- The name test of the scan loops passes exactly when the record's name
field and the query agree on the first `min(strlen(username), UT_NAMESIZE)`
bytes, so it passes for every record whose name starts with the query. -/
theorem ut_user_match_iff (username : CStr) (u : utmp) :
    ut_user_match username u = true ↔
      username.take (min (strlen username) UT_NAMESIZE)
        = u.ut_user.take (min (strlen username) UT_NAMESIZE) := by
  have hmin : (if strlen username < UT_NAMESIZE then strlen username else UT_NAMESIZE)
      = min (strlen username) UT_NAMESIZE := by
    split_ifs with h
    · exact (Nat.min_eq_left (Nat.le_of_lt h)).symm
    · exact (Nat.min_eq_right (Nat.le_of_not_lt h)).symm
  unfold ut_user_match
  rw [hmin, beq_iff_eq]
  exact strncmp_eq_zero_iff username u.ut_user _ (Nat.min_le_left _ _)

/-- C4. The scan returns a record whose name field differs from the query
truncated to the field width: on a log that holds one record of "bobby",
the query "bob" (three bytes, compared over three bytes only) gets that
record from `get_last_wtmp` and from `get_last_btmp`. -/
theorem last_session_of_longer_name :
    get_last_wtmp
        { wtmp := some [⟨cs "bobby", cs "tty1", [], 100⟩], wtmp_size := 1,
          cmp_fn := cmp_uid } (some (cs "bob")) = some (some 0)
    ∧ get_last_btmp
        { btmp := some [⟨cs "bobby", cs "tty1", [], 100⟩], btmp_size := 1,
          cmp_fn := cmp_uid } (some (cs "bob")) = some (some 0)
    ∧ (session_at (some [⟨cs "bobby", cs "tty1", [], 100⟩]) (some 0)).map utmp.ut_user
        = some (cs "bobby")
    ∧ (cs "bobby").take UT_NAMESIZE ≠ (cs "bob").take UT_NAMESIZE := by
  decide

/-! ## Supplementary groups -/

theorem sgroups_text_eq (nodes : List lslogins_sgroups) :
    sgroups_text nodes = comma_join (nodes.map (fun g => g.gid ++ 40 :: g.uname ++ [41])) := by
  induction nodes with
  | nil => rfl
  | cons g rest ih =>
    rcases rest with _ | ⟨g2, rest2⟩
    · rfl
    · simp only [sgroups_text, List.map_cons, comma_join] at ih ⊢
      rw [ih]
      simp

theorem build_sgroups_nodes_ok (h : Host) (l : List Nat)
    (hres : ∀ g ∈ l, ∃ grp, h.getgrgid g = .ok grp) :
    ∃ slen, build_sgroups_nodes h l
      = some (l.map (fun g => { gid := gidtostr g, uname := group_name h g }), slen) := by
  induction l with
  | nil => exact ⟨0, rfl⟩
  | cons g rest ih =>
    obtain ⟨grp, hg⟩ := hres g (List.mem_cons_self _ _)
    obtain ⟨slen, hrest⟩ := ih (fun x hx => hres x (List.mem_cons_of_mem _ hx))
    refine ⟨strlen (gidtostr g) + strlen grp.gr_name + slen, ?_⟩
    simp [build_sgroups_nodes, hg, hrest, group_name]

theorem build_sgroups_nodes_fail (h : Host) (l : List Nat)
    (hbad : ∃ g ∈ l, ∃ e, h.getgrgid g = .error e) : build_sgroups_nodes h l = none := by
  induction l with
  | nil =>
    obtain ⟨g, hg, _⟩ := hbad
    simp at hg
  | cons g rest ih =>
    cases hg : h.getgrgid g with
    | error e => simp [build_sgroups_nodes, hg]
    | ok grp =>
      obtain ⟨x, hx, e, hxe⟩ := hbad
      rcases List.mem_cons.mp hx with rfl | hx
      · rw [hg] at hxe
        cases hxe
      · simp [build_sgroups_nodes, hg, ih ⟨x, hx, e, hxe⟩]

theorem removal_perm (gid x : Nat) (l : List Nat) (hmem : gid ∈ l ++ [x]) :
    (((l ++ [x]).set (find_gid gid (l ++ [x])) x).take l.length).Perm ((l ++ [x]).erase gid) := by
  induction l with
  | nil =>
    have hx : gid = x := by simpa using hmem
    subst hx
    simp [find_gid]
  | cons a rest ih =>
    by_cases ha : a = gid
    · subst ha
      simp only [List.cons_append, find_gid, if_true, List.set_cons_zero, List.length_cons,
        List.take_succ_cons, List.erase_cons_head]
      rw [List.take_left]
      exact (List.perm_append_singleton x rest).symm
    · have hmem2 : gid ∈ rest ++ [x] := by
        rcases List.mem_cons.mp hmem with h | h
        · exact absurd h.symm ha
        · exact h
      have hbeq : (a == gid) = false := by simpa using ha
      simp only [List.cons_append, find_gid, ha, if_false, List.set_cons_succ, List.length_cons,
        List.take_succ_cons, List.erase_cons, hbeq, Bool.false_eq_true]
      exact (ih hmem2).cons a

theorem erase_eq_filter_of_count_one (gid : Nat) (l : List Nat) (hone : l.count gid = 1) :
    l.erase gid = l.filter (fun g => decide (g ≠ gid)) := by
  induction l with
  | nil => simp at hone
  | cons a rest ih =>
    by_cases ha : a = gid
    · subst ha
      have hzero : rest.count a = 0 := by
        simpa [List.count_cons] using hone
      have hnot : a ∉ rest := List.count_eq_zero.mp hzero
      have hfilter : rest.filter (fun g => decide (g ≠ a)) = rest := by
        rw [List.filter_eq_self]
        intro g hg
        have : g ≠ a := fun h => hnot (h ▸ hg)
        simpa using this
      rw [List.erase_cons_head, List.filter_cons]
      simp only [ne_eq, not_true_eq_false, decide_False, Bool.false_eq_true, if_false]
      exact hfilter.symm
    · have hbeq : (a == gid) = false := by simpa using ha
      have hone2 : rest.count gid = 1 := by
        simpa [List.count_cons, hbeq] using hone
      simp [List.erase_cons, hbeq, List.filter_cons, ha, ih hone2]

theorem get_sgroups_of_nonempty (h : Host) (pwd : passwd) (l : List Nat) (x : Nat)
    (hraw : h.getgrouplist pwd.pw_name pwd.pw_gid = l ++ [x]) :
    get_sgroups h pwd
      = (0, l.length, some (((l ++ [x]).set (find_gid pwd.pw_gid (l ++ [x])) x).take l.length)) := by
  simp [get_sgroups, hraw]

theorem build_sgroups_string_text (h : Host) (others : List Nat)
    (hres : ∀ g ∈ others, ∃ grp, h.getgrgid g = .ok grp) :
    (build_sgroups_string h others.length (some others)).map sgroups_buffer.text
      = if others = [] then none else some (comma_join (others.map (sgroup_pair h))) := by
  by_cases hnil : others = []
  · subst hnil
    simp [build_sgroups_string, build_sgroups_list]
  · have hlen : others.length ≠ 0 := fun h0 => hnil (List.length_eq_zero.mp h0)
    obtain ⟨slen, hnodes⟩ := build_sgroups_nodes_ok h others hres
    simp only [build_sgroups_string, build_sgroups_list, hlen, if_false, List.take_length,
      hnodes, Option.map_some', hnil, sgroups_text_eq, List.map_map]
    rfl

/-- The bytes that the `sprintf` calls of `build_sgroups_string` write, be it
inside the buffer or past its end: when the raw group list of an account
holds the primary gid exactly once and every other gid resolves,
`get_sgroups` succeeds and leaves a rearrangement of the raw gids other than
the primary, and the bytes written for them are their `gid(name)` pairs in
that order, joined by single commas (NULL is returned when there is no other
gid). -/
theorem sgroups_text_written (h : Host) (pwd : passwd)
    (hone : (h.getgrouplist pwd.pw_name pwd.pw_gid).count pwd.pw_gid = 1)
    (hres : ∀ g ∈ h.getgrouplist pwd.pw_name pwd.pw_gid, g ≠ pwd.pw_gid →
      ∃ grp, h.getgrgid g = .ok grp) :
    (get_sgroups h pwd).1 = 0
    ∧ (∃ others : List Nat,
        others.Perm ((h.getgrouplist pwd.pw_name pwd.pw_gid).filter
          (fun g => decide (g ≠ pwd.pw_gid)))
        ∧ (get_sgroups h pwd).2.1 = others.length
        ∧ (get_sgroups h pwd).2.2 = some others
        ∧ (build_sgroups_string h (get_sgroups h pwd).2.1 (get_sgroups h pwd).2.2).map
            sgroups_buffer.text
          = if others = [] then none else some (comma_join (others.map (sgroup_pair h)))) := by
  have hmem : pwd.pw_gid ∈ h.getgrouplist pwd.pw_name pwd.pw_gid :=
    h.getgrouplist_has_gid _ _
  rcases List.eq_nil_or_concat (h.getgrouplist pwd.pw_name pwd.pw_gid) with hnil | ⟨l, x, hraw⟩
  · rw [hnil] at hmem
    simp at hmem
  · rw [List.concat_eq_append] at hraw
    refine ⟨by rw [get_sgroups_of_nonempty h pwd l x hraw], ?_⟩
    have hperm : (((l ++ [x]).set (find_gid pwd.pw_gid (l ++ [x])) x).take l.length).Perm
        ((h.getgrouplist pwd.pw_name pwd.pw_gid).filter (fun g => decide (g ≠ pwd.pw_gid))) := by
      rw [← erase_eq_filter_of_count_one pwd.pw_gid _ hone, hraw]
      exact removal_perm pwd.pw_gid x l (hraw ▸ hmem)
    have hlen : (((l ++ [x]).set (find_gid pwd.pw_gid (l ++ [x])) x).take l.length).length
        = l.length := by
      simp
    refine ⟨_, hperm, ?_, ?_, ?_⟩
    · rw [get_sgroups_of_nonempty h pwd l x hraw, hlen]
    · rw [get_sgroups_of_nonempty h pwd l x hraw]
    · rw [get_sgroups_of_nonempty h pwd l x hraw]
      have hall : ∀ g ∈ ((l ++ [x]).set (find_gid pwd.pw_gid (l ++ [x])) x).take l.length,
          ∃ grp, h.getgrgid g = .ok grp := by
        intro g hg
        have hg2 := (hperm.mem_iff).mp hg
        rw [List.mem_filter] at hg2
        exact hres g hg2.1 (by simpa using hg2.2)
      have htext := build_sgroups_string_text h _ hall
      rw [hlen] at htext
      exact htext

/-- C5. For the account with primary gid 10 and the raw group list 10, 20,
30, whose other gids resolve to "name20" and "name30", `get_sgroups` leaves
the gids 30, 20 and `build_sgroups_string` makes the `sprintf` calls for
`30(name30),20(name20)`, but into a buffer of 17 bytes: the 21 bytes of the
text and its NUL need 22, so the last 5 bytes are written past the end of
the allocation and the value is not a string the buffer holds. -/
theorem sgroups_value_overruns :
    get_sgroups
        (table_host [] [⟨cs "name20", 20, []⟩, ⟨cs "name30", 30, []⟩] [10, 20, 30] 0
          (.error ENOENT)) ⟨cs "ann", 1000, 10, [], [], []⟩ = (0, 2, some [30, 20])
    ∧ build_sgroups_string
        (table_host [] [⟨cs "name20", 20, []⟩, ⟨cs "name30", 30, []⟩] [10, 20, 30] 0
          (.error ENOENT)) 2 (some [30, 20])
      = some { size := 17, text := cs "30(name30),20(name20)" }
    ∧ (cs "30(name30),20(name20)").length + 1 = 22
    ∧ 17 + 5 = (cs "30(name30),20(name20)").length + 1 := by
  decide

theorem find_gid_lt (gid : Nat) (l : List Nat) (hmem : gid ∈ l) :
    find_gid gid l < l.length := by
  induction l with
  | nil => simp at hmem
  | cons a rest ih =>
    by_cases ha : a = gid
    · simp [find_gid, ha]
    · have hrest : gid ∈ rest := by
        rcases List.mem_cons.mp hmem with hx | hx
        · exact absurd hx.symm ha
        · exact hx
      have := ih hrest
      simp only [find_gid, ha, if_false, List.length_cons]
      omega

/-- The removal step of `get_sgroups` on every host: the search loop stops
inside the array, at the first occurrence of the primary gid, and the list
that results is one shorter, a rearrangement of the raw list without that
occurrence. -/
theorem get_sgroups_removes_primary (h : Host) (pwd : passwd) :
    find_gid pwd.pw_gid (h.getgrouplist pwd.pw_name pwd.pw_gid)
      < (h.getgrouplist pwd.pw_name pwd.pw_gid).length
    ∧ (get_sgroups h pwd).1 = 0
    ∧ (get_sgroups h pwd).2.1 = (h.getgrouplist pwd.pw_name pwd.pw_gid).length - 1
    ∧ ∃ others, (get_sgroups h pwd).2.2 = some others
        ∧ others.Perm ((h.getgrouplist pwd.pw_name pwd.pw_gid).erase pwd.pw_gid) := by
  have hmem : pwd.pw_gid ∈ h.getgrouplist pwd.pw_name pwd.pw_gid :=
    h.getgrouplist_has_gid _ _
  refine ⟨find_gid_lt _ _ hmem, ?_⟩
  rcases List.eq_nil_or_concat (h.getgrouplist pwd.pw_name pwd.pw_gid) with hnil | ⟨l, x, hraw⟩
  · rw [hnil] at hmem
    simp at hmem
  · rw [List.concat_eq_append] at hraw
    rw [get_sgroups_of_nonempty h pwd l x hraw, hraw]
    rw [hraw] at hmem
    exact ⟨rfl, by simp, _, rfl, removal_perm pwd.pw_gid x l hmem⟩

/-- C7 as stated fails: the record of an account whose raw group list holds
only the primary gid and the record of an account with a supplementary gid
that does not resolve carry the same text, "-", in `sgroups`. -/
theorem empty_and_unknown_sgroups_counterexample :
    ((get_user_info
        (table_host [] [⟨cs "users", 10, []⟩] [10] 0 (.error ENOENT))
        { lslogins_flag := 0, columns := [COL_SGRPS] } { cmp_fn := cmp_uid } none
        { errno := 0, pwent := [⟨cs "ann", 1000, 10, [], [], []⟩] }).value.map
      (fun r => r.map lslogins_user.sgroups)) = some (some (some (cs "-")))
    ∧ ((get_user_info
        (table_host [] [⟨cs "users", 10, []⟩] [10, 20] 0 (.error ENOENT))
        { lslogins_flag := 0, columns := [COL_SGRPS] } { cmp_fn := cmp_uid } none
        { errno := 0, pwent := [⟨cs "ann", 1000, 10, [], [], []⟩] }).value.map
      (fun r => r.map lslogins_user.sgroups)) = some (some (some (cs "-"))) := by
  decide

/-- C7, amended. The text recorded in `sgroups` for an account whose raw
group list holds only the primary gid is the same `status[2]`, "-", that is
recorded when one of the gids left after the removal does not resolve:
`build_sgroups_string` returns NULL in both cases. -/
theorem empty_and_unknown_sgroups (h : Host) (src : user_sources) (user : lslogins_user)
    (hcase : h.getgrouplist src.pwd.pw_name src.pwd.pw_gid = [src.pwd.pw_gid]
      ∨ ∃ n list, get_sgroups h src.pwd = (0, n, some list)
          ∧ ∃ g ∈ list.take n, ∃ e, h.getgrgid g = .error e) :
    set_column h src COL_SGRPS user = .ok { user with sgroups := some (status 2) } := by
  rcases hcase with hraw | ⟨n, list, hget, hbad⟩
  · have hget : get_sgroups h src.pwd = (0, 0, some []) := by
      simp [get_sgroups, hraw, find_gid]
    simp [set_column, COL_SGRPS, COL_LOGIN, COL_UID, COL_PGRP, COL_PGID, hget,
      build_sgroups_string, build_sgroups_list]
  · have hnone : build_sgroups_string h n (some list) = none := by
      simp only [build_sgroups_string, build_sgroups_list]
      split_ifs with hn
      · rfl
      · rw [build_sgroups_nodes_fail h _ hbad]
    simp [set_column, COL_SGRPS, COL_LOGIN, COL_UID, COL_PGRP, COL_PGID, hget, hnone]

theorem empty_and_unknown_sgroups_witness :
    set_column (table_host [] [⟨cs "users", 10, []⟩] [10] 0 (.error ENOENT))
        { pwd := ⟨cs "ann", 1000, 10, [], [], []⟩, grp := ⟨cs "users", 10, []⟩,
          shadow := none, user_wtmp := none, user_btmp := none } COL_SGRPS {}
      = .ok { sgroups := some (status 2) } :=
  empty_and_unknown_sgroups (table_host [] [⟨cs "users", 10, []⟩] [10] 0 (.error ENOENT))
    { pwd := ⟨cs "ann", 1000, 10, [], [], []⟩, grp := ⟨cs "users", 10, []⟩,
      shadow := none, user_wtmp := none, user_btmp := none } {} (Or.inl rfl)

/-! ## The account class filter -/

/-- C8. Under the regular-accounts filter with the bounds 1000 and 60000 the
exemption from the bounds goes by the login name "nfsnobody", not by the uid
65534: the account "nobody" with uid 65534 is turned down with EAGAIN, the
account "nfsnobody" with uid 65534 is selected, and so is the account
"nfsnobody" with uid 70000, outside the bounds. -/
theorem nobody_uid_not_exempt :
    get_user_info (table_host [] [⟨cs "nobody", 65534, []⟩] [65534] 0 (.error ENOENT))
        { lslogins_flag := F_USRAC, columns := [COL_LOGIN, COL_UID] }
        { UID_MIN := 1000, UID_MAX := 60000, cmp_fn := cmp_uid } none
        { errno := 0, pwent := [⟨cs "nobody", 65534, 65534, [], [], []⟩] }
      = .ret none { errno := EAGAIN, pwent := [] }
    ∧ (get_user_info (table_host [] [⟨cs "nobody", 65534, []⟩] [65534] 0 (.error ENOENT))
        { lslogins_flag := F_USRAC, columns := [COL_LOGIN, COL_UID] }
        { UID_MIN := 1000, UID_MAX := 60000, cmp_fn := cmp_uid } none
        { errno := 0, pwent := [⟨cs "nfsnobody", 65534, 65534, [], [], []⟩] }).value
      = some (some { login := some (cs "nfsnobody"), uid := 65534 })
    ∧ (get_user_info (table_host [] [⟨cs "nobody", 65534, []⟩] [65534] 0 (.error ENOENT))
        { lslogins_flag := F_USRAC, columns := [COL_LOGIN, COL_UID] }
        { UID_MIN := 1000, UID_MAX := 60000, cmp_fn := cmp_uid } none
        { errno := 0, pwent := [⟨cs "nfsnobody", 70000, 65534, [], [], []⟩] }).value
      = some (some { login := some (cs "nfsnobody"), uid := 70000 }) := by
  decide

/-! ## Reading the login history -/

/-- C9 as stated fails: when `read_utmp` fails with ENOENT, the missing
file, `parse_wtmp` and `parse_btmp` end the run with `EXIT_FAILURE`. -/
theorem missing_log_counterexample :
    parse_wtmp (table_host [] [] [] 0 (.error ENOENT)) { cmp_fn := cmp_uid }
        (cs "/var/log/wtmp") { errno := 0, pwent := [] } = .exit EXIT_FAILURE
    ∧ parse_btmp (table_host [] [] [] 0 (.error ENOENT)) { cmp_fn := cmp_uid }
        (cs "/var/log/btmp") { errno := 0, pwent := [] } = .exit EXIT_FAILURE :=
  ⟨rfl, rfl⟩

/-- C9, amended. When reading a login-history file fails, `parse_wtmp` and
`parse_btmp` return -1 and leave the control structure, and so the empty
log, as it is only for a permission denial (EACCES); every other failure,
the missing file (ENOENT) among them, ends the run with `EXIT_FAILURE`. -/
theorem log_read_failure (h : Host) (ctl : lslogins_control) (path : CStr) (w : World)
    (e : Nat) (hfail : h.read_utmp path = .error e) :
    parse_wtmp h ctl path w
      = (if e = EACCES then .ret (-1, ctl) { w with errno := EACCES } else .exit EXIT_FAILURE)
    ∧ parse_btmp h ctl path w
      = (if e = EACCES then .ret (-1, ctl) { w with errno := EACCES } else .exit EXIT_FAILURE) := by
  by_cases he : e = EACCES
  · subst he
    simp [parse_wtmp, parse_btmp, hfail]
  · simp [parse_wtmp, parse_btmp, hfail, he]

theorem log_read_failure_witness :
    parse_wtmp (table_host [] [] [] 0 (.error EACCES)) { cmp_fn := cmp_uid }
        (cs "/var/log/wtmp") { errno := 0, pwent := [] }
      = (if EACCES = EACCES then .ret (-1, { cmp_fn := cmp_uid }) { errno := EACCES, pwent := [] }
          else .exit EXIT_FAILURE)
    ∧ parse_btmp (table_host [] [] [] 0 (.error EACCES)) { cmp_fn := cmp_uid }
        (cs "/var/log/wtmp") { errno := 0, pwent := [] }
      = (if EACCES = EACCES then .ret (-1, { cmp_fn := cmp_uid }) { errno := EACCES, pwent := [] }
          else .exit EXIT_FAILURE) :=
  log_read_failure (table_host [] [] [] 0 (.error EACCES)) { cmp_fn := cmp_uid }
    (cs "/var/log/wtmp") { errno := 0, pwent := [] } EACCES rfl

/-! ## Enumeration of all accounts -/

/-- C10. With no login list, an account whose primary group does not
resolve ends the enumeration: of the entries alice (gid 100, no group) and
bob (gid 200, group "users") none is inserted and `create_usertree` returns
0 with an empty tree; of bob, alice, carol only bob is inserted. With the
same two accounts named in the login list, alice is skipped and bob is
inserted. -/
theorem unresolved_group_ends_enumeration :
    created_rows (create_usertree
        (table_host [⟨cs "alice", 1001, 100, [], [], []⟩, ⟨cs "bob", 1002, 200, [], [], []⟩]
          [⟨cs "users", 200, []⟩] [] 0 (.error ENOENT))
        { lslogins_flag := 0, columns := [COL_LOGIN, COL_UID] } { cmp_fn := cmp_uid }
        { errno := 0,
          pwent := [⟨cs "alice", 1001, 100, [], [], []⟩, ⟨cs "bob", 1002, 200, [], [], []⟩] })
      = some (0, [])
    ∧ created_rows (create_usertree
        (table_host [⟨cs "bob", 1002, 200, [], [], []⟩, ⟨cs "alice", 1001, 100, [], [], []⟩,
            ⟨cs "carol", 1003, 200, [], [], []⟩]
          [⟨cs "users", 200, []⟩] [] 0 (.error ENOENT))
        { lslogins_flag := 0, columns := [COL_LOGIN, COL_UID] } { cmp_fn := cmp_uid }
        { errno := 0,
          pwent := [⟨cs "bob", 1002, 200, [], [], []⟩, ⟨cs "alice", 1001, 100, [], [], []⟩,
            ⟨cs "carol", 1003, 200, [], [], []⟩] })
      = some (0, [{ login := some (cs "bob"), uid := 1002 }])
    ∧ created_rows (create_usertree
        (table_host [⟨cs "alice", 1001, 100, [], [], []⟩, ⟨cs "bob", 1002, 200, [], [], []⟩]
          [⟨cs "users", 200, []⟩] [] 0 (.error ENOENT))
        { lslogins_flag := 0, columns := [COL_LOGIN, COL_UID] }
        { cmp_fn := cmp_uid, ulist := [cs "alice", cs "bob"], ulsiz := 2 }
        { errno := 0,
          pwent := [⟨cs "alice", 1001, 100, [], [], []⟩, ⟨cs "bob", 1002, 200, [], [], []⟩] })
      = some (0, [{ login := some (cs "bob"), uid := 1002 }]) := by
  decide

/-! ## The records that reach the tree -/

theorem set_sort_key_login (g : Globals) (pwd : passwd) (user : lslogins_user)
    (hsort : has_flag g.lslogins_flag F_SORT = true) :
    (set_sort_key g pwd user).login ≠ none := by
  unfold set_sort_key
  rw [if_pos hsort]
  split_ifs with h
  · simp
  · exact h

theorem get_user_info_shape (h : Host) (g : Globals) (ctl : lslogins_control)
    (username : Option CStr) (w : World) :
    get_user_info h g ctl username w ≠ .hang
    ∧ ∀ u w1, get_user_info h g ctl username w = .ret (some u) w1 →
        ∃ pwd user, u = set_sort_key g pwd user := by
  unfold get_user_info
  constructor
  · repeat' split
    all_goals simp
  · intro u w1
    repeat' split
    all_goals
      intro heq
      first
      | (cases heq; exact ⟨_, _, rfl⟩)
      | cases heq

theorem get_user_info_at_end (h : Host) (g : Globals) (ctl : lslogins_control) (w : World)
    (hw : w.pwent = []) :
    get_user_info h g ctl none w = .ret none { errno := 0, pwent := [] } := by
  simp [get_user_info, fetch_passwd, hw]

theorem get_user_info_takes_entry (h : Host) (g : Globals) (ctl : lslogins_control)
    (w : World) (p : passwd) (rest : List passwd) (hw : w.pwent = p :: rest)
    (x : Option lslogins_user) (w1 : World)
    (hret : get_user_info h g ctl none w = .ret x w1) : w1.pwent = rest := by
  simp only [get_user_info, fetch_passwd, hw] at hret
  repeat' split at hret
  all_goals first
    | (cases hret; rfl)
    | cases hret

theorem get_next_user_loop_spec (h : Host) (g : Globals) (ctl : lslogins_control)
    (fuel : Nat) (w : World) (hfuel : w.pwent.length < fuel) :
    get_next_user_loop h g ctl fuel w ≠ .hang
    ∧ (∀ u w1, get_next_user_loop h g ctl fuel w = .ret (some u) w1 →
        w1.pwent.length < w.pwent.length ∧ ∃ pwd user, u = set_sort_key g pwd user)
    ∧ (∀ w1, get_next_user_loop h g ctl fuel w = .ret none w1 →
        w1.pwent.length ≤ w.pwent.length) := by
  induction fuel generalizing w with
  | zero => omega
  | succ k ih =>
    have hshape := get_user_info_shape h g ctl none w
    rcases hpw : w.pwent with _ | ⟨p, rest⟩
    · have hend := get_user_info_at_end h g ctl w hpw
      simp [get_next_user_loop, hend, EAGAIN]
    · have htake := get_user_info_takes_entry h g ctl w p rest hpw
      simp only [get_next_user_loop]
      cases hres : get_user_info h g ctl none w with
      | hang => exact absurd hres hshape.1
      | fault => simp
      | exit code => simp
      | ret x w1 =>
        have hw1 : w1.pwent = rest := htake x w1 hres
        cases x with
        | some u =>
          refine ⟨by simp, ?_, by simp⟩
          intro u2 w2 heq
          cases heq
          exact ⟨by simp [hw1], hshape.2 u w1 hres⟩
        | none =>
          by_cases he : w1.errno = EAGAIN
          · have hk : w1.pwent.length < k := by
              rw [hw1]
              rw [hpw] at hfuel
              simp only [List.length_cons] at hfuel
              omega
            obtain ⟨h1, h2, h3⟩ := ih w1 hk
            simp only [he, if_true]
            refine ⟨h1, ?_, ?_⟩
            · intro u w2 heq
              obtain ⟨hlt, hex⟩ := h2 u w2 heq
              refine ⟨?_, hex⟩
              rw [hw1] at hlt
              simp only [List.length_cons]
              omega
            · intro w2 heq
              have hle := h3 w2 heq
              rw [hw1] at hle
              simp only [List.length_cons]
              omega
          · simp only [he, if_false]
            refine ⟨by simp, by simp, ?_⟩
            intro w2 heq
            cases heq
            simp [hw1]

theorem get_next_user_spec (h : Host) (g : Globals) (ctl : lslogins_control) (w : World) :
    get_next_user h g ctl w ≠ .hang
    ∧ ∀ u w1, get_next_user h g ctl w = .ret (some u) w1 →
        w1.pwent.length < w.pwent.length ∧ ∃ pwd user, u = set_sort_key g pwd user := by
  have hspec := get_next_user_loop_spec h g ctl (w.pwent.length + 1) { w with errno := 0 }
    (Nat.lt_succ_self _)
  exact ⟨hspec.1, hspec.2.1⟩

theorem create_usertree_all_spec (h : Host) (g : Globals) (fuel : Nat)
    (ctl : lslogins_control) (w : World) (hfuel : w.pwent.length < fuel) :
    create_usertree_all h g fuel ctl w ≠ .hang
    ∧ ∀ rc ctl1 w1, create_usertree_all h g fuel ctl w = .ret (rc, ctl1) w1 →
        rc = 0 ∧ ctl1.cmp_fn = ctl.cmp_fn
        ∧ ∃ users, ctl1.usertree = insert_users ctl.cmp_fn users ctl.usertree
            ∧ ∀ u ∈ users, ∃ pwd user, u = set_sort_key g pwd user := by
  induction fuel generalizing ctl w with
  | zero => omega
  | succ k ih =>
    have hnext := get_next_user_spec h g ctl w
    simp only [create_usertree_all]
    cases hres : get_next_user h g ctl w with
    | hang => exact absurd hres hnext.1
    | fault => simp
    | exit code => simp
    | ret x w1 =>
      cases x with
      | none =>
        refine ⟨by simp, ?_⟩
        intro rc ctl1 w2 heq
        cases heq
        exact ⟨rfl, rfl, [], rfl, by simp⟩
      | some u =>
        obtain ⟨hlt, hex⟩ := hnext.2 u w1 hres
        obtain ⟨h1, h2⟩ := ih { ctl with usertree := tsearch ctl.cmp_fn u ctl.usertree } w1
          (by omega)
        refine ⟨h1, ?_⟩
        intro rc ctl1 w2 heq
        obtain ⟨hrc, hcmp, users, htree, husers⟩ := h2 rc ctl1 w2 heq
        refine ⟨hrc, hcmp, u :: users, htree, ?_⟩
        intro x hx
        rcases List.mem_cons.mp hx with rfl | hx
        · exact hex
        · exact husers x hx

theorem get_user_shape (h : Host) (g : Globals) (ctl : lslogins_control) (name : CStr)
    (w : World) :
    get_user h g ctl name w ≠ .hang
    ∧ ∀ rc u w1, get_user h g ctl name w = .ret (rc, some u) w1 →
        ∃ pwd user, u = set_sort_key g pwd user := by
  have hshape := get_user_info_shape h g ctl (some name) w
  unfold get_user
  cases hres : get_user_info h g ctl (some name) w with
  | hang => exact absurd hres hshape.1
  | fault => simp
  | exit code => simp
  | ret x w1 =>
    constructor
    · simp only
      split_ifs <;> simp
    · intro rc u w2 heq
      simp only at heq
      split_ifs at heq with hc
      · cases heq
        simp at hc
      · cases heq
        exact hshape.2 u w1 hres

theorem create_usertree_ulist_spec (h : Host) (g : Globals) (names : List CStr)
    (ctl : lslogins_control) (w : World) :
    create_usertree_ulist h g names ctl w ≠ .hang
    ∧ ∀ rc ctl1 w1, create_usertree_ulist h g names ctl w = .ret (rc, ctl1) w1 →
        ctl1.cmp_fn = ctl.cmp_fn
        ∧ ∃ users, ctl1.usertree = insert_users ctl.cmp_fn users ctl.usertree
            ∧ ∀ u ∈ users, ∃ pwd user, u = set_sort_key g pwd user := by
  induction names generalizing ctl w with
  | nil =>
    refine ⟨by simp [create_usertree_ulist], ?_⟩
    intro rc ctl1 w1 heq
    simp only [create_usertree_ulist] at heq
    cases heq
    exact ⟨rfl, [], rfl, by simp⟩
  | cons name rest ih =>
    have hshape := get_user_shape h g ctl name w
    simp only [create_usertree_ulist]
    cases hres : get_user h g ctl name w with
    | hang => exact absurd hres hshape.1
    | fault => simp
    | exit code => simp
    | ret x w1 =>
      obtain ⟨rc0, user⟩ := x
      by_cases hrc : rc0 = 0
      swap
      · simp only [ne_eq, hrc, not_false_eq_true, if_true]
        refine ⟨by simp, ?_⟩
        intro rc ctl1 w2 heq
        cases heq
        exact ⟨rfl, [], rfl, by simp⟩
      · simp only [ne_eq, hrc, not_true_eq_false, if_false]
        cases user with
        | none => exact ih ctl w1
        | some u =>
          obtain ⟨h1, h2⟩ := ih { ctl with usertree := tsearch ctl.cmp_fn u ctl.usertree } w1
          refine ⟨h1, ?_⟩
          intro rc ctl1 w2 heq
          obtain ⟨hcmp, users, htree, husers⟩ := h2 rc ctl1 w2 heq
          refine ⟨hcmp, u :: users, htree, ?_⟩
          intro x hx
          rcases List.mem_cons.mp hx with rfl | hx
          · exact hshape.2 rc0 x w1 hres
          · exact husers x hx

/-- The function `create_usertree` always ends, and the tree it leaves is
the tree of the `tsearch` calls for a sequence of records that
`get_user_info` built, each with the field its comparator reads. -/
theorem create_usertree_spec (h : Host) (g : Globals) (ctl : lslogins_control) (w : World) :
    create_usertree h g ctl w ≠ .hang
    ∧ ∀ rc ctl1 w1, create_usertree h g ctl w = .ret (rc, ctl1) w1 →
        ctl1.cmp_fn = ctl.cmp_fn
        ∧ ∃ users, ctl1.usertree = insert_users ctl.cmp_fn users ctl.usertree
            ∧ ∀ u ∈ users, has_flag g.lslogins_flag F_SORT = true → u.login ≠ none := by
  unfold create_usertree
  split_ifs with hlist
  · obtain ⟨h1, h2⟩ := create_usertree_ulist_spec h g (ctl.ulist.take ctl.ulsiz) ctl w
    refine ⟨h1, ?_⟩
    intro rc ctl1 w1 heq
    obtain ⟨hcmp, users, htree, husers⟩ := h2 rc ctl1 w1 heq
    refine ⟨hcmp, users, htree, ?_⟩
    intro u hu hsort
    obtain ⟨pwd, user, rfl⟩ := husers u hu
    exact set_sort_key_login g pwd user hsort
  · obtain ⟨h1, h2⟩ := create_usertree_all_spec h g (w.pwent.length + 1) ctl w
      (Nat.lt_succ_self _)
    refine ⟨h1, ?_⟩
    intro rc ctl1 w1 heq
    obtain ⟨_, hcmp, users, htree, husers⟩ := h2 rc ctl1 w1 heq
    refine ⟨hcmp, users, htree, ?_⟩
    intro u hu hsort
    obtain ⟨pwd, user, rfl⟩ := husers u hu
    exact set_sort_key_login g pwd user hsort

theorem tsearch_mem {α : Type} (compar : α → α → Int) (x v : α) (t : Tree α)
    (hv : v ∈ (tsearch compar x t).inorder) : v = x ∨ v ∈ t.inorder := by
  induction t with
  | nil =>
    simp only [tsearch, Tree.inorder, List.nil_append, List.mem_singleton] at hv
    exact Or.inl hv
  | node l k r ihl ihr =>
    simp only [tsearch] at hv
    split_ifs at hv with h0 hlt
    · exact Or.inr hv
    · simp only [Tree.inorder, List.mem_append, List.mem_cons] at hv ⊢
      rcases hv with hv | hv | hv
      · rcases ihl hv with hx | hl
        · exact Or.inl hx
        · exact Or.inr (Or.inl hl)
      · exact Or.inr (Or.inr (Or.inl hv))
      · exact Or.inr (Or.inr (Or.inr hv))
    · simp only [Tree.inorder, List.mem_append, List.mem_cons] at hv ⊢
      rcases hv with hv | hv | hv
      · exact Or.inr (Or.inl hv)
      · exact Or.inr (Or.inr (Or.inl hv))
      · rcases ihr hv with hx | hr
        · exact Or.inl hx
        · exact Or.inr (Or.inr (Or.inr hr))

theorem insert_users_mem (compar : lslogins_user → lslogins_user → Int)
    (users : List lslogins_user) (t : Tree lslogins_user) (v : lslogins_user)
    (hv : v ∈ (insert_users compar users t).inorder) : v ∈ users ∨ v ∈ t.inorder := by
  induction users generalizing t with
  | nil => exact Or.inr hv
  | cons u rest ih =>
    rcases ih (tsearch compar u t) hv with h | h
    · exact Or.inl (List.mem_cons_of_mem _ h)
    · rcases tsearch_mem compar u v t h with rfl | h
      · exact Or.inl (List.mem_cons_self _ _)
      · exact Or.inr h

/-- The table that `print_user_table` gives after `create_usertree`, started
on the empty tree with the comparator that `main` sets up (`cmp_uid`, or
`cmp_uname` together with the flag `F_SORT`), is in strictly increasing
comparator order, and under `F_SORT` every line has its login set. -/
theorem created_table_increasing (h : Host) (g : Globals) (ctl : lslogins_control)
    (w : World) (rc : Int) (ctl1 : lslogins_control) (w1 : World)
    (hempty : ctl.usertree = Tree.nil)
    (hcmp : ctl.cmp_fn = cmp_uid
      ∨ (ctl.cmp_fn = cmp_uname ∧ has_flag g.lslogins_flag F_SORT = true))
    (hret : create_usertree h g ctl w = .ret (rc, ctl1) w1) :
    (print_user_table ctl1).Pairwise (fun a b => ctl1.cmp_fn a b < 0)
    ∧ (has_flag g.lslogins_flag F_SORT = true →
        ∀ u ∈ print_user_table ctl1, u.login ≠ none) := by
  obtain ⟨hsame, users, htree, hlogin⟩ := (create_usertree_spec h g ctl w).2 rc ctl1 w1 hret
  have hc : TotalCmp ctl.cmp_fn := by
    rcases hcmp with hu | ⟨hu, _⟩
    · rw [hu]; exact cmp_uid_total
    · rw [hu]; exact cmp_uname_total
  unfold print_user_table
  rw [table_rows_eq_inorder, hsame, htree, hempty]
  refine ⟨insert_users_sorted hc users Tree.nil List.Pairwise.nil, ?_⟩
  intro hsort u hu
  rcases insert_users_mem ctl.cmp_fn users Tree.nil u hu with hmem | hmem
  · exact hlogin u hmem hsort
  · simp [Tree.inorder] at hmem

/-- The enumeration of `create_usertree` ends at the first entry that passes
the account class test and whose primary group does not resolve, unless
`getgrgid` leaves EAGAIN in `errno`: the entries behind it are not read and
the tree stays as it is. -/
theorem enumeration_stops_at_unresolved_group (h : Host) (g : Globals)
    (ctl : lslogins_control) (w : World) (p : passwd) (rest : List passwd) (e : Nat)
    (hlist : ctl.ulist = []) (hw : w.pwent = p :: rest)
    (hsel : uid_rejected g ctl p = false)
    (hgrp : h.getgrgid p.pw_gid = .error e) (he : e ≠ EAGAIN) :
    create_usertree h g ctl w = .ret (0, ctl) { errno := e, pwent := rest } := by
  simp [create_usertree, hlist, create_usertree_all, get_next_user, get_next_user_loop,
    get_user_info, fetch_passwd, hw, hsel, hgrp, he]

/-- Under the regular-accounts filter alone an entry is turned down exactly
when its login is not "nfsnobody" and its uid lies outside the bounds; the
uid 65534 plays no part. -/
theorem uid_rejected_regular (g : Globals) (ctl : lslogins_control) (pwd : passwd)
    (husr : has_flag g.lslogins_flag F_USRAC = true)
    (hsys : has_flag g.lslogins_flag F_SYSAC = false) :
    uid_rejected g ctl pwd = true ↔
      strcmp (cs "nfsnobody") pwd.pw_name ≠ 0
        ∧ (pwd.pw_uid < ctl.UID_MIN ∨ pwd.pw_uid > ctl.UID_MAX) := by
  unfold uid_rejected
  by_cases hname : strcmp (cs "nfsnobody") pwd.pw_name = 0
  · simp [husr, hsys, hname]
  · simp [husr, hname]

/-! ## The explicit login list -/

theorem get_user_info_named (h : Host) (g : Globals) (ctl : lslogins_control) (name : CStr)
    (w : World) :
    get_user_info h g ctl (some name) w
      = match get_user_info h g ctl (some name) { errno := 0, pwent := [] } with
        | .ret x w1 => .ret x { errno := w1.errno, pwent := w.pwent }
        | .exit code => .exit code
        | .fault => .fault
        | .hang => .hang := by
  simp only [get_user_info, fetch_passwd]
  cases hp : h.getpwnam name with
  | error e => rfl
  | ok pwd =>
    simp only []
    by_cases hr : uid_rejected g ctl pwd = true
    · simp only [hr, if_true]
    · simp only [hr, Bool.false_eq_true, if_false]
      cases hg : h.getgrgid pwd.pw_gid with
      | error e => rfl
      | ok grp =>
        simp only []
        generalize (if ctl.wtmp.isSome = true then get_last_wtmp ctl (some pwd.pw_name)
          else some none) = a
        generalize (if ctl.btmp.isSome = true then get_last_btmp ctl (some pwd.pw_name)
          else some none) = b
        cases a with
        | none => rfl
        | some iw =>
          cases b with
          | none => rfl
          | some ib =>
            simp only []
            cases hs : h.getspnam pwd.pw_name with
            | error e =>
              simp only []
              by_cases he : e = EACCES
              · simp only [he, ne_eq, not_true_eq_false, if_false]
                split <;> rfl
              · simp only [ne_eq, he, not_false_eq_true, if_true]
            | ok sp =>
              simp only []
              split <;> rfl

theorem get_user_info_tree (h : Host) (g : Globals) (ctl : lslogins_control)
    (t : Tree lslogins_user) (username : Option CStr) (w : World) :
    get_user_info h g { ctl with usertree := t } username w
      = get_user_info h g ctl username w := rfl

theorem create_usertree_ulist_benign (h : Host) (g : Globals) (ctl : lslogins_control)
    (names : List CStr) (t : Tree lslogins_user) (w : World)
    (hok : ∀ name ∈ names, ∃ x w1,
      get_user_info h g ctl (some name) { errno := 0, pwent := [] } = .ret x w1
        ∧ (x = none → w1.errno = 0 ∨ w1.errno = ENOENT ∨ w1.errno = ESRCH
            ∨ w1.errno = EBADF ∨ w1.errno = EPERM ∨ w1.errno = EAGAIN)) :
    ∃ w1, create_usertree_ulist h g names { ctl with usertree := t } w
      = .ret (0, { ctl with
          usertree := insert_users ctl.cmp_fn (names.filterMap (named_record h g ctl)) t })
          w1 := by
  induction names generalizing t w with
  | nil => exact ⟨w, rfl⟩
  | cons name rest ih =>
    obtain ⟨x, w1, hres, hbenign⟩ := hok name (List.mem_cons_self _ _)
    have hrest := fun t1 w2 => ih t1 w2 (fun n hn => hok n (List.mem_cons_of_mem _ hn))
    have hrec : named_record h g ctl name = x := by
      simp only [named_record, hres]
    have hinfo : get_user_info h g { ctl with usertree := t } (some name) w
        = .ret x { errno := w1.errno, pwent := w.pwent } := by
      rw [get_user_info_tree, get_user_info_named, hres]
    have huser : get_user h g { ctl with usertree := t } name w
        = .ret (0, x) { errno := w1.errno, pwent := w.pwent } := by
      simp only [get_user, hinfo]
      cases x with
      | some u => simp
      | none =>
        rcases hbenign rfl with he | he | he | he | he | he <;>
          simp [he, IS_REAL_ERRNO, ENOENT, ESRCH, EBADF, EPERM, EAGAIN]
    simp only [create_usertree_ulist, huser, ne_eq, not_true_eq_false, if_false]
    cases x with
    | some u =>
      obtain ⟨w3, h3⟩ := hrest (tsearch ctl.cmp_fn u t) { errno := w1.errno, pwent := w.pwent }
      refine ⟨w3, ?_⟩
      simp only [List.filterMap_cons, hrec, insert_users]
      exact h3
    | none =>
      obtain ⟨w3, h3⟩ := hrest t { errno := w1.errno, pwent := w.pwent }
      refine ⟨w3, ?_⟩
      simp only [List.filterMap_cons, hrec]
      exact h3

/-- C11. With an explicit login list in which every name either gets a record
from `get_user_info` or gets NULL with `errno` 0, ENOENT, ESRCH, EBADF, EPERM
or EAGAIN, `create_usertree` returns 0 and its tree is the tree of the
`tsearch` calls for the records of the names that got one, in list order:
the other names are skipped. With the list bob, nosuch, of which only bob
is an account, it returns 0 and the table has the one line of bob. -/
theorem login_list_skips_unknown (h : Host) (g : Globals) (ctl : lslogins_control) (w : World)
    (hlist : ctl.ulist ≠ []) (hsize : ctl.ulsiz = ctl.ulist.length)
    (hok : ∀ name ∈ ctl.ulist, ∃ x w1,
      get_user_info h g ctl (some name) { errno := 0, pwent := [] } = .ret x w1
        ∧ (x = none → w1.errno = 0 ∨ w1.errno = ENOENT ∨ w1.errno = ESRCH
            ∨ w1.errno = EBADF ∨ w1.errno = EPERM ∨ w1.errno = EAGAIN)) :
    (∃ w1, create_usertree h g ctl w
      = .ret (0, { ctl with
          usertree := insert_users ctl.cmp_fn (ctl.ulist.filterMap (named_record h g ctl))
            ctl.usertree }) w1)
    ∧ created_rows (create_usertree
        (table_host [⟨cs "bob", 1002, 200, [], [], []⟩] [⟨cs "users", 200, []⟩] [] 0
          (.error ENOENT))
        { lslogins_flag := 0, columns := [COL_LOGIN, COL_UID] }
        { cmp_fn := cmp_uid, ulist := [cs "bob", cs "nosuch"], ulsiz := 2 }
        { errno := 0, pwent := [⟨cs "bob", 1002, 200, [], [], []⟩] })
      = some (0, [{ login := some (cs "bob"), uid := 1002 }]) := by
  refine ⟨?_, by decide⟩
  have hhead : ctl.ulist.head?.isSome = true := by
    cases hl : ctl.ulist with
    | nil => exact absurd hl hlist
    | cons a rest => rfl
  have htake : ctl.ulist.take ctl.ulsiz = ctl.ulist := by
    rw [hsize, List.take_length]
  simp only [create_usertree, hhead, if_true, htake]
  exact create_usertree_ulist_benign h g ctl ctl.ulist ctl.usertree w hok

theorem login_list_skips_unknown_witness :
    ∃ w1, create_usertree
        (table_host [⟨cs "ann", 1001, 200, [], [], []⟩] [⟨cs "users", 200, []⟩] [] 0
          (.error ENOENT))
        { lslogins_flag := 0, columns := [COL_UID] }
        { cmp_fn := cmp_uid, ulist := [cs "ghost", cs "ann"], ulsiz := 2 }
        { errno := 0, pwent := [] }
      = .ret (0,
          { cmp_fn := cmp_uid, ulist := [cs "ghost", cs "ann"], ulsiz := 2,
            usertree := insert_users cmp_uid
              ([cs "ghost", cs "ann"].filterMap (named_record
                (table_host [⟨cs "ann", 1001, 200, [], [], []⟩] [⟨cs "users", 200, []⟩] [] 0
                  (.error ENOENT))
                { lslogins_flag := 0, columns := [COL_UID] }
                { cmp_fn := cmp_uid, ulist := [cs "ghost", cs "ann"], ulsiz := 2 }))
              Tree.nil }) w1 :=
  (login_list_skips_unknown
    (table_host [⟨cs "ann", 1001, 200, [], [], []⟩] [⟨cs "users", 200, []⟩] [] 0
      (.error ENOENT))
    { lslogins_flag := 0, columns := [COL_UID] }
    { cmp_fn := cmp_uid, ulist := [cs "ghost", cs "ann"], ulsiz := 2 }
    { errno := 0, pwent := [] } (by decide) rfl
    (by
      intro name hname
      have hcases : name = cs "ghost" ∨ name = cs "ann" := by simpa using hname
      rcases hcases with rfl | rfl
      · exact ⟨none, { errno := 0, pwent := [] }, by decide, fun _ => Or.inl rfl⟩
      · exact ⟨some { uid := 1001 }, { errno := EACCES, pwent := [] }, by decide,
          fun hx => by cases hx⟩)).1

/-! ## The fields of the record -/

/-- What a call of `get_user_info` that returns a record has gone through:
the entry fetched, the account class test passed, the primary group
resolved, both session lookups in bounds, the shadow lookup either succeeded
or was refused with EACCES, and the column loop ran to its end. -/
theorem get_user_info_some (h : Host) (g : Globals) (ctl : lslogins_control)
    (username : Option CStr) (w : World) (u : lslogins_user) (w2 : World)
    (hret : get_user_info h g ctl username w = .ret (some u) w2) :
    ∃ pwd w1 grp iw ib shadow user,
      fetch_passwd h username { w with errno := 0 } = (some pwd, w1)
      ∧ uid_rejected g ctl pwd = false
      ∧ h.getgrgid pwd.pw_gid = .ok grp
      ∧ (if ctl.wtmp.isSome then get_last_wtmp ctl (some pwd.pw_name) else some none) = some iw
      ∧ (if ctl.btmp.isSome then get_last_btmp ctl (some pwd.pw_name) else some none) = some ib
      ∧ ((h.getspnam pwd.pw_name = .error EACCES ∧ shadow = none)
          ∨ ∃ sp, h.getspnam pwd.pw_name = .ok sp
              ∧ shadow = some { sp with sp_lstchg := sp.sp_lstchg * 86400 })
      ∧ set_columns h
          { pwd := pwd, grp := grp, shadow := shadow,
            user_wtmp := session_at ctl.wtmp iw, user_btmp := session_at ctl.btmp ib }
          g.columns {} = .ok user
      ∧ u = set_sort_key g pwd user := by
  simp only [get_user_info] at hret
  rcases hf : fetch_passwd h username { w with errno := 0 } with ⟨_ | pwd, w1⟩
  · simp [hf] at hret
  · simp only [hf] at hret
    by_cases hr : uid_rejected g ctl pwd = true
    · simp [hr] at hret
    · simp only [hr, Bool.false_eq_true, if_false] at hret
      cases hg : h.getgrgid pwd.pw_gid with
      | error e => simp [hg] at hret
      | ok grp =>
        simp only [hg] at hret
        cases ha : (if ctl.wtmp.isSome then get_last_wtmp ctl (some pwd.pw_name)
            else some none) with
        | none => simp [ha] at hret
        | some iw =>
          cases hb : (if ctl.btmp.isSome then get_last_btmp ctl (some pwd.pw_name)
              else some none) with
          | none => simp [ha, hb] at hret
          | some ib =>
            simp only [ha, hb] at hret
            cases hs : h.getspnam pwd.pw_name with
            | error e =>
              simp only [hs] at hret
              by_cases he : e = EACCES
              · subst he
                simp only [ne_eq, not_true_eq_false, if_false] at hret
                cases hc : set_columns h
                    { pwd := pwd, grp := grp, shadow := none,
                      user_wtmp := session_at ctl.wtmp iw,
                      user_btmp := session_at ctl.btmp ib } g.columns {} with
                | error code => simp [hc] at hret
                | ok user =>
                  simp only [hc] at hret
                  cases hret
                  exact ⟨pwd, w1, grp, iw, ib, none, user, rfl, by simpa using hr, hg, ha,
                    hb, Or.inl ⟨hs, rfl⟩, hc, rfl⟩
              · simp [he] at hret
            | ok sp =>
              simp only [hs] at hret
              cases hc : set_columns h
                  { pwd := pwd, grp := grp,
                    shadow := some { sp with sp_lstchg := sp.sp_lstchg * 86400 },
                    user_wtmp := session_at ctl.wtmp iw,
                    user_btmp := session_at ctl.btmp ib } g.columns {} with
              | error code => simp [hc] at hret
              | ok user =>
                simp only [hc] at hret
                cases hret
                exact ⟨pwd, w1, grp, iw, ib, _, user, rfl, by simpa using hr, hg, ha,
                  hb, Or.inr ⟨sp, hs, rfl⟩, hc, rfl⟩

theorem set_column_unknown (h : Host) (src : user_sources) (c : Nat) (u : lslogins_user)
    (hc : 22 ≤ c) : set_column h src c u = .error EXIT_FAILURE := by
  obtain ⟨n, rfl⟩ : ∃ n, c = n + 22 := ⟨c - 22, by omega⟩
  simp [set_column, COL_LOGIN, COL_UID, COL_PGRP, COL_PGID, COL_SGRPS, COL_HOME, COL_SHELL,
    COL_FULLNAME, COL_LAST_LOGIN, COL_LAST_TTY, COL_LAST_HOSTNAME, COL_FAILED_LOGIN,
    COL_FAILED_TTY, COL_HUSH_STATUS, COL_NOLOGIN, COL_LOCKED, COL_NOPASSWD,
    COL_PWD_WARN, COL_PWD_CTIME, COL_PWD_CTIME_MIN, COL_PWD_CTIME_MAX, COL_SELINUX]

theorem set_column_key_fields (h : Host) (src : user_sources) (c : Nat)
    (u u1 : lslogins_user) (hok : set_column h src c u = .ok u1) :
    (c = COL_UID → u1.uid = src.pwd.pw_uid) ∧ (c ≠ COL_UID → u1.uid = u.uid)
    ∧ (c = COL_LOGIN → u1.login = some src.pwd.pw_name)
    ∧ (c ≠ COL_LOGIN → u1.login = u.login) := by
  by_cases hc : c < 22
  · interval_cases c <;>
      simp only [set_column, COL_LOGIN, COL_UID, COL_PGRP, COL_PGID, COL_SGRPS, COL_HOME,
        COL_SHELL, COL_FULLNAME, COL_LAST_LOGIN, COL_LAST_TTY, COL_LAST_HOSTNAME,
        COL_FAILED_LOGIN, COL_FAILED_TTY, COL_HUSH_STATUS, COL_NOLOGIN, COL_LOCKED,
        COL_NOPASSWD, COL_PWD_WARN, COL_PWD_CTIME, COL_PWD_CTIME_MIN, COL_PWD_CTIME_MAX,
        COL_SELINUX, Nat.reduceEqDiff, OfNat.ofNat_ne_zero, OfNat.zero_ne_ofNat,
        if_true, if_false] at hok ⊢ <;>
      (repeat' split at hok) <;>
      first
        | (cases hok; simp)
        | cases hok
  · rw [set_column_unknown h src c u (by omega)] at hok
    cases hok

theorem set_columns_key_fields (h : Host) (src : user_sources) (cols : List Nat)
    (u u1 : lslogins_user) (hok : set_columns h src cols u = .ok u1) :
    (COL_UID ∈ cols → u1.uid = src.pwd.pw_uid) ∧ (COL_UID ∉ cols → u1.uid = u.uid)
    ∧ (COL_LOGIN ∈ cols → u1.login = some src.pwd.pw_name)
    ∧ (COL_LOGIN ∉ cols → u1.login = u.login) := by
  induction cols generalizing u with
  | nil =>
    simp only [set_columns] at hok
    cases hok
    simp
  | cons c rest ih =>
    simp only [set_columns] at hok
    cases hstep : set_column h src c u with
    | error code => simp [hstep] at hok
    | ok u2 =>
      simp only [hstep] at hok
      obtain ⟨h1, h2, h3, h4⟩ := set_column_key_fields h src c u u2 hstep
      obtain ⟨i1, i2, i3, i4⟩ := ih u2 hok
      refine ⟨?_, ?_, ?_, ?_⟩
      · intro hmem
        by_cases hr : COL_UID ∈ rest
        · exact i1 hr
        · have hc : c = COL_UID := by
            rcases List.mem_cons.mp hmem with hx | hx
            · exact hx.symm
            · exact absurd hx hr
          rw [i2 hr]
          exact h1 hc
      · intro hnot
        have hr : COL_UID ∉ rest := fun hx => hnot (List.mem_cons_of_mem _ hx)
        have hc : c ≠ COL_UID := fun hx => hnot (hx ▸ List.mem_cons_self _ _)
        rw [i2 hr]
        exact h2 hc
      · intro hmem
        by_cases hr : COL_LOGIN ∈ rest
        · exact i3 hr
        · have hc : c = COL_LOGIN := by
            rcases List.mem_cons.mp hmem with hx | hx
            · exact hx.symm
            · exact absurd hx hr
          rw [i4 hr]
          exact h3 hc
      · intro hnot
        have hr : COL_LOGIN ∉ rest := fun hx => hnot (List.mem_cons_of_mem _ hx)
        have hc : c ≠ COL_LOGIN := fun hx => hnot (hx ▸ List.mem_cons_self _ _)
        rw [i4 hr]
        exact h4 hc

/-- C13 as stated fails: sorting by login name (`F_SORT`) with the columns
LOGIN alone, the record built for the account ann with uid 1000 has the uid
field 0. -/
theorem uid_not_populated_counterexample :
    (get_user_info (table_host [] [⟨cs "users", 10, []⟩] [10] 0 (.error ENOENT))
        { lslogins_flag := F_SORT, columns := [COL_LOGIN] } { cmp_fn := cmp_uname } none
        { errno := 0, pwent := [⟨cs "ann", 1000, 10, [], [], []⟩] }).value
      = some (some { login := some (cs "ann"), uid := 0 })
    ∧ (⟨cs "ann", 1000, 10, [], [], []⟩ : passwd).pw_uid ≠ 0 := by
  decide

/-- C13, amended. The record that `get_user_info` builds for an account has
the field its comparator reads. Its uid field is the uid of the account when
the sort key is the uid (`F_SORT` clear) or when the UID column is among the
requested columns; when the sort key is the login name (`F_SORT` set) and the
UID column is not requested, the uid field stays the 0 of `xcalloc` and the
login field is the login of the account. -/
theorem record_has_sort_key (h : Host) (g : Globals) (ctl : lslogins_control)
    (username : Option CStr) (w : World) (pwd : passwd) (w1 : World)
    (u : lslogins_user) (w2 : World)
    (hfetch : fetch_passwd h username { w with errno := 0 } = (some pwd, w1))
    (hret : get_user_info h g ctl username w = .ret (some u) w2) :
    ((has_flag g.lslogins_flag F_SORT = false ∨ COL_UID ∈ g.columns) → u.uid = pwd.pw_uid)
    ∧ (has_flag g.lslogins_flag F_SORT = true → u.login = some pwd.pw_name)
    ∧ (has_flag g.lslogins_flag F_SORT = true → COL_UID ∉ g.columns → u.uid = 0) := by
  obtain ⟨pwd2, w3, grp, iw, ib, shadow, user, hf, _, _, _, _, _, hcols, hu⟩ :=
    get_user_info_some h g ctl username w u w2 hret
  rw [hfetch] at hf
  cases hf
  obtain ⟨k1, k2, k3, k4⟩ := set_columns_key_fields h _ g.columns {} user hcols
  simp only at k1 k2 k3 k4
  subst hu
  refine ⟨?_, ?_, ?_⟩
  · intro hcase
    by_cases hsort : has_flag g.lslogins_flag F_SORT = true
    · have hcol : COL_UID ∈ g.columns := by
        rcases hcase with hx | hx
        · rw [hsort] at hx
          cases hx
        · exact hx
      simp only [set_sort_key, hsort, if_true]
      split_ifs
      · exact k1 hcol
      · exact k1 hcol
    · simp [set_sort_key, hsort]
  · intro hsort
    simp only [set_sort_key, hsort, if_true]
    split_ifs with hnone
    · rfl
    · by_cases hcol : COL_LOGIN ∈ g.columns
      · exact k3 hcol
      · exact absurd (k4 hcol) hnone
  · intro hsort hcol
    simp only [set_sort_key, hsort, if_true]
    split_ifs
    · exact k2 hcol
    · exact k2 hcol

theorem record_has_sort_key_witness :
    ({ login := some (cs "ann"), uid := 1000 } : lslogins_user).uid
      = (⟨cs "ann", 1000, 10, [], [], []⟩ : passwd).pw_uid :=
  (record_has_sort_key (table_host [] [⟨cs "users", 10, []⟩] [10] 0 (.error ENOENT))
    { lslogins_flag := 0, columns := [COL_LOGIN] } { cmp_fn := cmp_uid } none
    { errno := 0, pwent := [⟨cs "ann", 1000, 10, [], [], []⟩] }
    ⟨cs "ann", 1000, 10, [], [], []⟩ { errno := 0, pwent := [] }
    { login := some (cs "ann"), uid := 1000 } { errno := EACCES, pwent := [] }
    (by decide) (by decide)).1 (Or.inl (by decide))

/-! ## A refused shadow lookup -/

theorem build_sgroups_nodes_denied (h : Host) (l : List Nat) :
    build_sgroups_nodes (denied h) l = build_sgroups_nodes h l := by
  induction l with
  | nil => rfl
  | cons g rest ih =>
    simp only [build_sgroups_nodes, ih]
    rfl

theorem build_sgroups_string_denied (h : Host) (n : Nat) (l : Option (List Nat)) :
    build_sgroups_string (denied h) n l = build_sgroups_string h n l := by
  simp only [build_sgroups_string, build_sgroups_list, build_sgroups_nodes_denied]

theorem get_sgroups_denied (h : Host) (pwd : passwd) :
    get_sgroups (denied h) pwd = get_sgroups h pwd := rfl

theorem fetch_passwd_denied (h : Host) (username : Option CStr) (w : World) :
    fetch_passwd (denied h) username w = fetch_passwd h username w := by
  cases username <;> rfl

theorem set_column_denied (h : Host) (src : user_sources) (c : Nat)
    (u1 u2 b : lslogins_user) (hblind : shadow_blind u1 = shadow_blind u2)
    (hok : set_column h src c u2 = .ok b) :
    ∃ a, set_column (denied h) { src with shadow := none } c u1 = .ok a
      ∧ shadow_blind a = shadow_blind b := by
  have hfields := hblind
  simp only [shadow_blind, lslogins_user.mk.injEq, true_and, and_true] at hfields
  obtain ⟨f1, f2, f3, f4, f5, f6, f7, f8, f9, f10, f11, f12, f13, f14, f15, f16, f17⟩ := hfields
  by_cases hc : c < 22
  · interval_cases c <;>
      simp only [set_column, COL_LOGIN, COL_UID, COL_PGRP, COL_PGID, COL_SGRPS, COL_HOME,
        COL_SHELL, COL_FULLNAME, COL_LAST_LOGIN, COL_LAST_TTY, COL_LAST_HOSTNAME,
        COL_FAILED_LOGIN, COL_FAILED_TTY, COL_HUSH_STATUS, COL_NOLOGIN, COL_LOCKED,
        COL_NOPASSWD, COL_PWD_WARN, COL_PWD_CTIME, COL_PWD_CTIME_MIN, COL_PWD_CTIME_MAX,
        COL_SELINUX, Nat.reduceEqDiff, OfNat.ofNat_ne_zero, OfNat.zero_ne_ofNat,
        if_true, if_false, get_sgroups_denied, build_sgroups_string_denied] at hok ⊢ <;>
      (repeat' split at hok) <;>
      first
        | (cases hok
           clear hblind
           simp_all [shadow_blind, denied]
           done)
        | (cases hok
           refine ⟨u1, ?_, hblind⟩
           simp_all [denied])
        | cases hok
  · rw [set_column_unknown h src c u2 (by omega)] at hok
    cases hok

theorem set_columns_denied (h : Host) (src : user_sources) (cols : List Nat)
    (u1 u2 b : lslogins_user) (hblind : shadow_blind u1 = shadow_blind u2)
    (hok : set_columns h src cols u2 = .ok b) :
    ∃ a, set_columns (denied h) { src with shadow := none } cols u1 = .ok a
      ∧ shadow_blind a = shadow_blind b := by
  induction cols generalizing u1 u2 with
  | nil =>
    simp only [set_columns] at hok
    cases hok
    exact ⟨u1, rfl, hblind⟩
  | cons c rest ih =>
    simp only [set_columns] at hok
    cases hstep : set_column h src c u2 with
    | error code => simp [hstep] at hok
    | ok b1 =>
      simp only [hstep] at hok
      obtain ⟨a1, ha1, hb1⟩ := set_column_denied h src c u1 u2 b1 hblind hstep
      obtain ⟨a, ha, hb⟩ := ih a1 b1 hb1 hok
      exact ⟨a, by simp only [set_columns, ha1, ha], hb⟩

theorem set_column_sentinels (h : Host) (src : user_sources) (c : Nat)
    (u u1 : lslogins_user) (hshadow : src.shadow = none)
    (hok : set_column h src c u = .ok u1) :
    ((c = COL_NOPASSWD → u1.nopasswd = 2) ∧ (c ≠ COL_NOPASSWD → u1.nopasswd = u.nopasswd))
    ∧ ((c = COL_LOCKED → u1.locked = 2) ∧ (c ≠ COL_LOCKED → u1.locked = u.locked))
    ∧ ((c = COL_PWD_WARN → u1.pwd_warn = some (status 2))
        ∧ (c ≠ COL_PWD_WARN → u1.pwd_warn = u.pwd_warn))
    ∧ ((c = COL_PWD_CTIME → u1.pwd_ctime = some (status 2))
        ∧ (c ≠ COL_PWD_CTIME → u1.pwd_ctime = u.pwd_ctime))
    ∧ ((c = COL_PWD_CTIME_MIN → u1.pwd_ctime_min = some (status 2))
        ∧ (c ≠ COL_PWD_CTIME_MIN → u1.pwd_ctime_min = u.pwd_ctime_min))
    ∧ ((c = COL_PWD_CTIME_MAX → u1.pwd_ctime_max = some (status 2))
        ∧ (c ≠ COL_PWD_CTIME_MAX → u1.pwd_ctime_max = u.pwd_ctime_max)) := by
  by_cases hc : c < 22
  · interval_cases c <;>
      simp only [set_column, COL_LOGIN, COL_UID, COL_PGRP, COL_PGID, COL_SGRPS, COL_HOME,
        COL_SHELL, COL_FULLNAME, COL_LAST_LOGIN, COL_LAST_TTY, COL_LAST_HOSTNAME,
        COL_FAILED_LOGIN, COL_FAILED_TTY, COL_HUSH_STATUS, COL_NOLOGIN, COL_LOCKED,
        COL_NOPASSWD, COL_PWD_WARN, COL_PWD_CTIME, COL_PWD_CTIME_MIN, COL_PWD_CTIME_MAX,
        COL_SELINUX, Nat.reduceEqDiff, OfNat.ofNat_ne_zero, OfNat.zero_ne_ofNat,
        if_true, if_false, hshadow] at hok ⊢ <;>
      (repeat' split at hok) <;>
      first
        | (cases hok; simp)
        | cases hok
  · rw [set_column_unknown h src c u (by omega)] at hok
    cases hok

theorem sentinel_step {β : Type} (c cf : Nat) (rest : List Nat) (v0 v1 v2 s : β)
    (hset : c = cf → v1 = s) (hkeep : c ≠ cf → v1 = v0)
    (ih : cf ∈ rest ∨ v1 = s → v2 = s) (hcase : cf ∈ c :: rest ∨ v0 = s) : v2 = s := by
  apply ih
  by_cases hc : c = cf
  · exact Or.inr (hset hc)
  · rcases hcase with hmem | hv
    · rcases List.mem_cons.mp hmem with hx | hx
      · exact absurd hx.symm hc
      · exact Or.inl hx
    · exact Or.inr ((hkeep hc).trans hv)

theorem set_columns_sentinels (h : Host) (src : user_sources) (cols : List Nat)
    (u u1 : lslogins_user) (hshadow : src.shadow = none)
    (hok : set_columns h src cols u = .ok u1) :
    (COL_NOPASSWD ∈ cols ∨ u.nopasswd = 2 → u1.nopasswd = 2)
    ∧ (COL_LOCKED ∈ cols ∨ u.locked = 2 → u1.locked = 2)
    ∧ (COL_PWD_WARN ∈ cols ∨ u.pwd_warn = some (status 2) → u1.pwd_warn = some (status 2))
    ∧ (COL_PWD_CTIME ∈ cols ∨ u.pwd_ctime = some (status 2)
        → u1.pwd_ctime = some (status 2))
    ∧ (COL_PWD_CTIME_MIN ∈ cols ∨ u.pwd_ctime_min = some (status 2)
        → u1.pwd_ctime_min = some (status 2))
    ∧ (COL_PWD_CTIME_MAX ∈ cols ∨ u.pwd_ctime_max = some (status 2)
        → u1.pwd_ctime_max = some (status 2)) := by
  induction cols generalizing u with
  | nil =>
    simp only [set_columns] at hok
    cases hok
    simp
  | cons c rest ih =>
    simp only [set_columns] at hok
    cases hstep : set_column h src c u with
    | error code => simp [hstep] at hok
    | ok u2 =>
      simp only [hstep] at hok
      obtain ⟨s1, s2, s3, s4, s5, s6⟩ := set_column_sentinels h src c u u2 hshadow hstep
      obtain ⟨i1, i2, i3, i4, i5, i6⟩ := ih u2 hok
      exact ⟨sentinel_step c _ rest _ _ _ _ s1.1 s1.2 i1,
        sentinel_step c _ rest _ _ _ _ s2.1 s2.2 i2,
        sentinel_step c _ rest _ _ _ _ s3.1 s3.2 i3,
        sentinel_step c _ rest _ _ _ _ s4.1 s4.2 i4,
        sentinel_step c _ rest _ _ _ _ s5.1 s5.2 i5,
        sentinel_step c _ rest _ _ _ _ s6.1 s6.2 i6⟩

theorem set_sort_key_blind (g : Globals) (pwd : passwd) (a b : lslogins_user)
    (hab : shadow_blind a = shadow_blind b) :
    shadow_blind (set_sort_key g pwd a) = shadow_blind (set_sort_key g pwd b) := by
  simp only [shadow_blind, lslogins_user.mk.injEq, true_and, and_true] at hab
  have hlogin : a.login = b.login := hab.1
  unfold set_sort_key
  rw [hlogin]
  split_ifs <;> simp_all [shadow_blind]

theorem set_sort_key_shadow_fields (g : Globals) (pwd : passwd) (a : lslogins_user) :
    (set_sort_key g pwd a).nopasswd = a.nopasswd
    ∧ (set_sort_key g pwd a).locked = a.locked
    ∧ (set_sort_key g pwd a).pwd_warn = a.pwd_warn
    ∧ (set_sort_key g pwd a).pwd_ctime = a.pwd_ctime
    ∧ (set_sort_key g pwd a).pwd_ctime_min = a.pwd_ctime_min
    ∧ (set_sort_key g pwd a).pwd_ctime_max = a.pwd_ctime_max := by
  unfold set_sort_key
  split_ifs <;> simp

/-- C12. When the shadow lookup is refused with EACCES, `get_user_info`
returns a record wherever it returns one for the host as it is (with the
shadow lookup succeeding, say): each of the fields NOPASSWD, LOCKED,
PWD_WARN, PWD_CHANGE, PWD_MIN and PWD_MAX that is requested holds the
unknown value, the index 2 or the text `status[2]`, which is "-", and every
field that is not filled from shadow data has the value it has in that other
record. -/
theorem shadow_denied_degrades (h : Host) (g : Globals) (ctl : lslogins_control)
    (username : Option CStr) (w : World) (u2 : lslogins_user) (w2 : World)
    (hret : get_user_info h g ctl username w = .ret (some u2) w2) :
    ∃ u1 w1, get_user_info (denied h) g ctl username w = .ret (some u1) w1
      ∧ (COL_NOPASSWD ∈ g.columns → u1.nopasswd = 2)
      ∧ (COL_LOCKED ∈ g.columns → u1.locked = 2)
      ∧ (COL_PWD_WARN ∈ g.columns → u1.pwd_warn = some (status 2))
      ∧ (COL_PWD_CTIME ∈ g.columns → u1.pwd_ctime = some (status 2))
      ∧ (COL_PWD_CTIME_MIN ∈ g.columns → u1.pwd_ctime_min = some (status 2))
      ∧ (COL_PWD_CTIME_MAX ∈ g.columns → u1.pwd_ctime_max = some (status 2))
      ∧ status 2 = cs "-"
      ∧ u1.login = u2.login ∧ u1.uid = u2.uid ∧ u1.group = u2.group ∧ u1.gid = u2.gid
      ∧ u1.gecos = u2.gecos ∧ u1.nologin = u2.nologin ∧ u1.sgroups = u2.sgroups
      ∧ u1.last_login = u2.last_login ∧ u1.last_tty = u2.last_tty
      ∧ u1.last_hostname = u2.last_hostname ∧ u1.failed_login = u2.failed_login
      ∧ u1.failed_tty = u2.failed_tty ∧ u1.context = u2.context
      ∧ u1.homedir = u2.homedir ∧ u1.shell = u2.shell ∧ u1.pwd_status = u2.pwd_status
      ∧ u1.hushed = u2.hushed := by
  obtain ⟨pwd, w1, grp, iw, ib, shadow, user, hf, hr, hg, ha, hb, _, hcols, hu⟩ :=
    get_user_info_some h g ctl username w u2 w2 hret
  obtain ⟨a, hcols1, hblind⟩ := set_columns_denied h
    { pwd := pwd, grp := grp, shadow := shadow,
      user_wtmp := session_at ctl.wtmp iw, user_btmp := session_at ctl.btmp ib }
    g.columns {} {} user rfl hcols
  have hgrp : (denied h).getgrgid pwd.pw_gid = .ok grp := hg
  have hsp : (denied h).getspnam pwd.pw_name = .error EACCES := rfl
  have hget : get_user_info (denied h) g ctl username w
      = .ret (some (set_sort_key g pwd a)) { w1 with errno := EACCES } := by
    simp only [get_user_info, fetch_passwd_denied, hf, hr, Bool.false_eq_true, if_false, hgrp,
      ha, hb, hsp, ne_eq, not_true_eq_false]
    simp only [] at hcols1
    rw [hcols1]
  obtain ⟨s1, s2, s3, s4, s5, s6⟩ := set_columns_sentinels (denied h) _ g.columns {} a rfl hcols1
  obtain ⟨k1, k2, k3, k4, k5, k6⟩ := set_sort_key_shadow_fields g pwd a
  have hfinal := set_sort_key_blind g pwd a user hblind
  rw [← hu] at hfinal
  refine ⟨set_sort_key g pwd a, _, hget, ?_, ?_, ?_, ?_, ?_, ?_, rfl, ?_⟩
  · intro hc
    rw [k1]
    exact s1 (Or.inl hc)
  · intro hc
    rw [k2]
    exact s2 (Or.inl hc)
  · intro hc
    rw [k3]
    exact s3 (Or.inl hc)
  · intro hc
    rw [k4]
    exact s4 (Or.inl hc)
  · intro hc
    rw [k5]
    exact s5 (Or.inl hc)
  · intro hc
    rw [k6]
    exact s6 (Or.inl hc)
  · simp only [shadow_blind, lslogins_user.mk.injEq, true_and, and_true] at hfinal
    exact hfinal

theorem shadow_denied_degrades_witness :
    ∃ u1 w1, get_user_info
        (denied { table_host [] [⟨cs "users", 10, []⟩] [10] 0 (.error ENOENT) with
                  getspnam := fun _ => .ok ⟨cs "$6$salt$hash", 19000, 0, 0, 7⟩ })
        { lslogins_flag := 0, columns := [COL_LOGIN, COL_NOPASSWD, COL_LOCKED, COL_PWD_WARN] }
        { cmp_fn := cmp_uid } none
        { errno := 0, pwent := [⟨cs "ann", 1000, 10, [], [], []⟩] } = .ret (some u1) w1
      ∧ u1.nopasswd = 2 ∧ u1.locked = 2 ∧ u1.pwd_warn = some (cs "-")
      ∧ u1.login = some (cs "ann") :=
  match shadow_denied_degrades
      { table_host [] [⟨cs "users", 10, []⟩] [10] 0 (.error ENOENT) with
        getspnam := fun _ => .ok ⟨cs "$6$salt$hash", 19000, 0, 0, 7⟩ }
      { lslogins_flag := 0, columns := [COL_LOGIN, COL_NOPASSWD, COL_LOCKED, COL_PWD_WARN] }
      { cmp_fn := cmp_uid } none
      { errno := 0, pwent := [⟨cs "ann", 1000, 10, [], [], []⟩] }
      { login := some (cs "ann"), uid := 1000, pwd_warn := some (cs "7") }
      { errno := 0, pwent := [] } (by decide) with
  | ⟨u1, w1, hget, h1, h2, h3, _, _, _, _, hlogin, _⟩ =>
    ⟨u1, w1, hget, h1 (by decide), h2 (by decide), h3 (by decide), hlogin⟩

/-! ## The list of requested logins -/

theorem gr_mem_rest_eq (mem : List CStr) (n : Nat) (ar : List CStr) :
    gr_mem_rest mem n ar = (n + mem.length + 1, ar ++ mem) := by
  induction mem generalizing n ar with
  | nil => simp [gr_mem_rest]
  | cons u rest ih =>
    simp only [gr_mem_rest, ih, List.length_cons, List.append_assoc, List.singleton_append]
    congr 1
    omega

/-- For the first group that resolves the member loop starts at index 0 and
appends every member of the group. -/
theorem get_ulist_first_group (h : Host) (g : CStr) (grp : group) (ar : List CStr)
    (hgrp : h.getgrnam g = .ok grp) :
    get_ulist_groups h [g] 0 ar = some (grp.gr_mem.length + 1, ar ++ grp.gr_mem) := by
  simp [get_ulist_groups, hgrp, gr_mem_loop, gr_mem_rest_eq]

/-- C14. The member index `n` of `get_ulist` is not set back to 0 for the
second group of the `--groups` list. With the groups a (member x) and b
(members y, z, w) and the list `a,b`, the user list is x, w: the members y
and z of b are left out. With a (members x, y) and b (member z) the read of
`gr_mem[3]` of b lies past the end of its array. For b alone all three
members are stored, and the recorded size is the number of names stored. -/
theorem second_group_members_skipped :
    (get_ulist
        (table_host [] [⟨cs "a", 1, [cs "x"]⟩, ⟨cs "b", 2, [cs "y", cs "z", cs "w"]⟩] [] 0
          (.error ENOENT))
        { cmp_fn := cmp_uid } (some (cs "root")) (some (cs "a,b"))).map
      (fun r => (r.2.ulist, r.2.ulsiz)) = some ([cs "root", cs "x", cs "w"], 3)
    ∧ (get_ulist
        (table_host [] [⟨cs "a", 1, [cs "x", cs "y"]⟩, ⟨cs "b", 2, [cs "z"]⟩] [] 0
          (.error ENOENT))
        { cmp_fn := cmp_uid } none (some (cs "a,b"))).map
      (fun r => (r.2.ulist, r.2.ulsiz)) = none
    ∧ (get_ulist
        (table_host [] [⟨cs "a", 1, [cs "x"]⟩, ⟨cs "b", 2, [cs "y", cs "z", cs "w"]⟩] [] 0
          (.error ENOENT))
        { cmp_fn := cmp_uid } (some (cs "root")) (some (cs "b"))).map
      (fun r => (r.2.ulist, r.2.ulsiz)) = some ([cs "root", cs "y", cs "z", cs "w"], 4) := by
  decide

/-- For the second group that resolves the member loop starts at the index
the first group left, one past its NULL: the first `length + 1` members of
the second group are passed over, and a second group with fewer members is
read outside its array. -/
theorem get_ulist_second_group (h : Host) (g1 g2 : CStr) (grp1 grp2 : group)
    (ar : List CStr) (h1 : h.getgrnam g1 = .ok grp1) (h2 : h.getgrnam g2 = .ok grp2) :
    get_ulist_groups h [g1, g2] 0 ar
      = if grp1.gr_mem.length + 1 ≤ grp2.gr_mem.length
        then some (grp2.gr_mem.length + 1,
          ar ++ grp1.gr_mem ++ grp2.gr_mem.drop (grp1.gr_mem.length + 1))
        else none := by
  by_cases hlen : grp1.gr_mem.length + 1 ≤ grp2.gr_mem.length
  · simp only [get_ulist_groups, h1, h2, gr_mem_loop, gr_mem_rest_eq, Nat.zero_le, if_true,
      List.drop_zero, Nat.zero_add, hlen, List.length_drop]
    congr 2
    omega
  · simp [get_ulist_groups, h1, h2, gr_mem_loop, gr_mem_rest_eq, hlen]

/-! ## The choice of the logs to read -/

/-- C15. The scan of the `-o` columns sets `want_btmp` only for FAILED_TTY
(`i == COL_FAILED_TTY && i >= COL_FAILED_LOGIN`): for the column list
FAILED_LOGIN no log is requested, while LAST_LOGIN alone requests the
successful-session log. So with `-o LOGIN,FAILED_LOGIN` the failed-session
log, which holds a record of ann, is not read and the field of ann is "-";
with FAILED_TTY added it is the time of that record. -/
theorem failed_login_log_not_requested :
    scan_columns [COL_FAILED_LOGIN] (false, false) = (false, false)
    ∧ scan_columns [COL_FAILED_TTY] (false, false) = (false, true)
    ∧ scan_columns [COL_LAST_LOGIN] (false, false) = (true, false)
    ∧ (main_after_options
        { table_host [⟨cs "ann", 1000, 10, [], [], []⟩] [⟨cs "users", 10, []⟩] [10] 0
            (.ok (1, some [⟨cs "ann", cs "ssh", [], 86400⟩])) with
          asctime := fun _ => some (cs "Fri Jan  2 00:00:00 1970\n") }
        0 [COL_LOGIN, COL_FAILED_LOGIN] { cmp_fn := cmp_uid } none none
        (cs "/var/log/wtmp") (cs "/var/log/btmp")
        { errno := 0, pwent := [⟨cs "ann", 1000, 10, [], [], []⟩] }).value
      = some (EXIT_SUCCESS,
          [{ login := some (cs "ann"), uid := 1000, failed_login := some (cs "-") }])
    ∧ (main_after_options
        { table_host [⟨cs "ann", 1000, 10, [], [], []⟩] [⟨cs "users", 10, []⟩] [10] 0
            (.ok (1, some [⟨cs "ann", cs "ssh", [], 86400⟩])) with
          asctime := fun _ => some (cs "Fri Jan  2 00:00:00 1970\n") }
        0 [COL_LOGIN, COL_FAILED_LOGIN, COL_FAILED_TTY] { cmp_fn := cmp_uid } none none
        (cs "/var/log/wtmp") (cs "/var/log/btmp")
        { errno := 0, pwent := [⟨cs "ann", 1000, 10, [], [], []⟩] }).value
      = some (EXIT_SUCCESS,
          [{ login := some (cs "ann"), uid := 1000,
             failed_login := some (cs "Fri Jan  2 00:00:00 1970"),
             failed_tty := some (cs "ssh") }]) := by
  decide

/-- The scan of the `-o` columns requests the successful-session log when a
column lies between LAST_LOGIN and LAST_HOSTNAME, and the failed-session log
only when FAILED_TTY is among the columns. -/
theorem scan_columns_spec (cols : List Nat) (want_wtmp want_btmp : Bool) :
    scan_columns cols (want_wtmp, want_btmp)
      = (want_wtmp || cols.any (fun i => decide (COL_LAST_LOGIN ≤ i ∧ i ≤ COL_LAST_HOSTNAME)),
         want_btmp || cols.any (fun i => decide (i = COL_FAILED_TTY))) := by
  induction cols generalizing want_wtmp want_btmp with
  | nil => simp [scan_columns]
  | cons i rest ih =>
    simp only [scan_columns, ih, List.any_cons]
    have hge : i = COL_FAILED_TTY → i ≥ COL_FAILED_LOGIN := by
      intro hi
      rw [hi]
      decide
    by_cases h1 : i ≤ COL_LAST_HOSTNAME ∧ i ≥ COL_LAST_LOGIN <;>
      by_cases h2 : i = COL_FAILED_TTY <;>
      cases want_wtmp <;> cases want_btmp <;>
      simp_all [and_comm]

/-! ## The size of the supplementary groups buffer -/

theorem utoa_digits_nonzero (fuel n : Nat) (acc : List Nat) (hacc : ∀ c ∈ acc, c ≠ 0) :
    ∀ c ∈ utoa_digits fuel n acc, c ≠ 0 := by
  induction fuel generalizing n acc with
  | zero => simpa [utoa_digits] using hacc
  | succ k ih =>
    have hcons : ∀ c ∈ (48 + n % 10) :: acc, c ≠ 0 := by
      intro c hc
      rcases List.mem_cons.mp hc with rfl | hc
      · omega
      · exact hacc c hc
    simp only [utoa_digits]
    split_ifs
    · exact hcons
    · exact ih (n / 10) _ hcons

theorem strlen_of_nonzero (s : CStr) (hs : ∀ c ∈ s, c ≠ 0) : strlen s = s.length := by
  unfold strlen
  rw [List.takeWhile_eq_self_iff.mpr]
  intro c hc
  simpa using hs c hc

theorem strlen_gidtostr (gid : Nat) : strlen (gidtostr gid) = (gidtostr gid).length :=
  strlen_of_nonzero _ (utoa_digits_nonzero _ _ [] (by simp))

theorem sgroups_text_length (nodes : List lslogins_sgroups) (hne : nodes ≠ []) :
    (sgroups_text nodes).length + 1
      = (nodes.map (fun g => g.gid.length + g.uname.length)).sum + 3 * nodes.length := by
  induction nodes with
  | nil => exact absurd rfl hne
  | cons g rest ih =>
    rcases rest with _ | ⟨g2, rest2⟩
    · simp [sgroups_text]
      omega
    · have ih2 := ih (by simp)
      simp only [sgroups_text, List.length_append, List.length_cons, List.map_cons,
        List.sum_cons] at ih2 ⊢
      omega

theorem build_sgroups_nodes_slen (h : Host) (l : List Nat)
    (nodes : List lslogins_sgroups) (slen : Nat)
    (hnames : ∀ g ∈ l, ∀ grp, h.getgrgid g = .ok grp → ∀ c ∈ grp.gr_name, c ≠ 0)
    (hok : build_sgroups_nodes h l = some (nodes, slen)) :
    nodes.length = l.length
    ∧ slen = (nodes.map (fun g => g.gid.length + g.uname.length)).sum := by
  induction l generalizing nodes slen with
  | nil =>
    simp only [build_sgroups_nodes, Option.some.injEq, Prod.mk.injEq] at hok
    obtain ⟨rfl, rfl⟩ := hok
    simp
  | cons g rest ih =>
    simp only [build_sgroups_nodes] at hok
    cases hg : h.getgrgid g with
    | error e => simp [hg] at hok
    | ok grp =>
      simp only [hg] at hok
      cases hrest : build_sgroups_nodes h rest with
      | none => simp [hrest] at hok
      | some p =>
        obtain ⟨nodes1, slen1⟩ := p
        simp only [hrest, Option.some.injEq, Prod.mk.injEq] at hok
        obtain ⟨rfl, rfl⟩ := hok
        obtain ⟨hlen, hsum⟩ := ih nodes1 slen1
          (fun x hx => hnames x (List.mem_cons_of_mem _ hx)) hrest
        have hname : strlen grp.gr_name = grp.gr_name.length :=
          strlen_of_nonzero _ (hnames g (List.mem_cons_self _ _) grp hg)
        simp only [List.length_cons, List.map_cons, List.sum_cons, hlen, hsum,
          strlen_gidtostr, hname, true_and]

/-- The buffer of `build_sgroups_string` is too small for every list: for
`n ≥ 1` gids that resolve (to names without a NUL byte) the text written and
its final NUL take `3 n - 1` bytes more than the `slen + 1` allocated. -/
theorem sgroups_buffer_short (h : Host) (l : List Nat) (hne : l ≠ [])
    (hres : ∀ g ∈ l, ∃ grp, h.getgrgid g = .ok grp)
    (hnames : ∀ g ∈ l, ∀ grp, h.getgrgid g = .ok grp → ∀ c ∈ grp.gr_name, c ≠ 0) :
    ∃ buf, build_sgroups_string h l.length (some l) = some buf
      ∧ buf.text.length + 1 = buf.size + (3 * l.length - 1) := by
  obtain ⟨slen, hnodes⟩ := build_sgroups_nodes_ok h l hres
  obtain ⟨hlen, hsum⟩ := build_sgroups_nodes_slen h l _ slen hnames hnodes
  have hpos : l.length ≠ 0 := fun h0 => hne (List.length_eq_zero.mp h0)
  have hnodes_ne : l.map (fun g => ({ gid := gidtostr g, uname := group_name h g } :
      lslogins_sgroups)) ≠ [] := by
    intro hnil
    exact hne (List.map_eq_nil_iff.mp hnil)
  have htext := sgroups_text_length _ hnodes_ne
  have hbuf : build_sgroups_string h l.length (some l)
      = some { size := slen + 1,
               text := sgroups_text (l.map (fun g =>
                 ({ gid := gidtostr g, uname := group_name h g } : lslogins_sgroups))) } := by
    simp only [build_sgroups_string, build_sgroups_list, hpos, if_false, List.take_length,
      hnodes]
  refine ⟨_, hbuf, ?_⟩
  simp only
  rw [hlen] at htext
  rw [← hsum] at htext
  omega

/-- C16. For the one gid 20 of the group "name20" the length reported
through `slen` is 8, the sum of the lengths of "20" and "name20", without the
2 bytes of the parentheses (the statement `slen += 3 * n - 1` moves the
pointer `slen`, it does not add to `*slen`): `build_sgroups_string` allocates
9 bytes and writes the 10 bytes of `20(name20)` and a NUL. For the gids 20
and 30 it allocates 17 bytes and writes 21 and a NUL. -/
theorem sgroups_slen_without_punctuation :
    (build_sgroups_list (table_host [] [⟨cs "name20", 20, []⟩] [] 0 (.error ENOENT))
        1 (some [20])).map Prod.snd = some 8
    ∧ build_sgroups_string (table_host [] [⟨cs "name20", 20, []⟩] [] 0 (.error ENOENT))
        1 (some [20]) = some { size := 9, text := cs "20(name20)" }
    ∧ (cs "20(name20)").length = 10
    ∧ strlen (gidtostr 20) + strlen (cs "name20") + (3 * 1 - 1) = 10
    ∧ (build_sgroups_string
        (table_host [] [⟨cs "name20", 20, []⟩, ⟨cs "name30", 30, []⟩] [] 0 (.error ENOENT))
        2 (some [20, 30])).map (fun b => (b.size, b.text.length)) = some (17, 21) := by
  decide

/-- Under the conditions of `sgroups_text_written`, as soon as the account
has one gid besides the primary (and the group names hold no NUL byte), the
text that `build_sgroups_string` writes and its NUL are longer than the
buffer by `3 n - 1` bytes, `n` being the number of gids left: the value is
written past the end of the allocation for every such account. -/
theorem sgroups_value_buffer_short (h : Host) (pwd : passwd)
    (hone : (h.getgrouplist pwd.pw_name pwd.pw_gid).count pwd.pw_gid = 1)
    (hres : ∀ g ∈ h.getgrouplist pwd.pw_name pwd.pw_gid, g ≠ pwd.pw_gid →
      ∃ grp, h.getgrgid g = .ok grp)
    (hmore : 2 ≤ (h.getgrouplist pwd.pw_name pwd.pw_gid).length)
    (hnames : ∀ g ∈ h.getgrouplist pwd.pw_name pwd.pw_gid, ∀ grp,
      h.getgrgid g = .ok grp → ∀ c ∈ grp.gr_name, c ≠ 0) :
    ∃ buf, build_sgroups_string h (get_sgroups h pwd).2.1 (get_sgroups h pwd).2.2 = some buf
      ∧ buf.text.length + 1
          = buf.size + (3 * ((h.getgrouplist pwd.pw_name pwd.pw_gid).length - 1) - 1)
      ∧ buf.size < buf.text.length + 1 := by
  obtain ⟨_, others, hperm, hlen, hlist, _⟩ := sgroups_text_written h pwd hone hres
  obtain ⟨_, _, hlen2, _⟩ := get_sgroups_removes_primary h pwd
  have hcount : others.length = (h.getgrouplist pwd.pw_name pwd.pw_gid).length - 1 := by
    rw [← hlen, hlen2]
  have hne : others ≠ [] := by
    intro hnil
    rw [hnil] at hcount
    simp only [List.length_nil] at hcount
    omega
  have hin : ∀ g ∈ others, g ∈ h.getgrouplist pwd.pw_name pwd.pw_gid ∧ g ≠ pwd.pw_gid := by
    intro g hg
    have hg2 := (hperm.mem_iff).mp hg
    rw [List.mem_filter] at hg2
    exact ⟨hg2.1, by simpa using hg2.2⟩
  obtain ⟨buf, hbuf, hsize⟩ := sgroups_buffer_short h others hne
    (fun g hg => hres g (hin g hg).1 (hin g hg).2)
    (fun g hg => hnames g (hin g hg).1)
  refine ⟨buf, ?_, ?_, ?_⟩
  · rw [hlen, hlist]
    exact hbuf
  · rw [← hcount]
    exact hsize
  · have hpos : 0 < others.length := List.length_pos.mpr hne
    omega

end Lslogins
